import Mathlib

/-!
# Verification of the go3d scene-graph and mesh pipeline

Shallow embedding of the core of the `jnb666/go3d` repository:

* `mesh/mesh.go` — the mesh builder (`AddVertex`/`AddNormal`/`AddTexCoord`/
  `AddFace`/`SetNormalSmoothing`/`Build`/`Invert`/`Clone`), the normal cache
  and the running mean used for smoothed normals;
* `mesh/loader.go` — the OBJ/MTL text loader (`LoadObj`, `LoadMtl`,
  `mtlData.toMaterial`) and the numeric field parsers;
* the scene package (`Transform`, `Group`/`Item` `Scale`/`Translate`,
  `View.addLight`, `DirectionalLight`/`PointLight`);
* the procedural-shape cache-hit path (`Cylinder` etc. return `m.Clone()`).

`float32` values are modelled as exact rationals.  `math.Sqrt` (used through
`Normalize` and `Len`) is modelled by `fsqrt`, a rational stand-in that is
exact on perfect squares — every concrete input used in a theorem below is
chosen so that the square roots involved are exact, where the float code is
also exact.  Go slices become lists, Go maps become insertion-ordered
association lists (the one observable difference — Go's randomised map
iteration order in `normalCache.build` — only permutes the order in which
identical normal values are appended, which none of the proved statements
depend on).  A Go `panic` that is recovered into an error is modelled with
`Except`/`Option`.
-/

namespace Go3d

/-- Rational stand-in for `float32` square root: `Rat.sqrt` is exact whenever
the argument is a square of a rational and an approximation otherwise (where
the float code is itself approximate).  Every concrete input appearing in a
theorem below is chosen so the square roots involved are exact. -/
def fsqrt (q : ℚ) : ℚ := Rat.sqrt q

theorem fsqrt_one : fsqrt 1 = 1 := by norm_num [fsqrt, Rat.sqrt]

theorem fsqrt_sq_of_nonneg (q : ℚ) (hq : 0 ≤ q) : fsqrt (q * q) = q := by
  rw [fsqrt, Rat.sqrt_eq, abs_of_nonneg hq]

/-- 2-component float vector (`mgl32.Vec2`). -/
structure Vec2 where
  x : ℚ
  y : ℚ
deriving DecidableEq, Repr

/-- 3-component float vector (`mgl32.Vec3`). -/
structure Vec3 where
  x : ℚ
  y : ℚ
  z : ℚ
deriving DecidableEq, Repr

/-- 4-component float vector (`mgl32.Vec4`). -/
structure Vec4 where
  x : ℚ
  y : ℚ
  z : ℚ
  w : ℚ
deriving DecidableEq, Repr

namespace Vec3

def zero : Vec3 := ⟨0, 0, 0⟩

def add (a b : Vec3) : Vec3 := ⟨a.x + b.x, a.y + b.y, a.z + b.z⟩

def sub (a b : Vec3) : Vec3 := ⟨a.x - b.x, a.y - b.y, a.z - b.z⟩

/-- `mgl32.Vec3.Mul` — scalar multiple. -/
def mul (a : Vec3) (c : ℚ) : Vec3 := ⟨a.x * c, a.y * c, a.z * c⟩

/-- `mgl32.Vec3.Cross`. -/
def cross (a b : Vec3) : Vec3 :=
  ⟨a.y * b.z - a.z * b.y, a.z * b.x - a.x * b.z, a.x * b.y - a.y * b.x⟩

/-- Squared euclidean length (`v.Len()` is `fsqrt` of this). -/
def normSq (a : Vec3) : ℚ := a.x * a.x + a.y * a.y + a.z * a.z

/-- `mgl32.Vec3.Normalize`: `v.Mul(1 / v.Len())`. -/
def normalize (a : Vec3) : Vec3 := a.mul (1 / fsqrt a.normSq)

/-- `Vec3.Vec4(w)` — append a w component. -/
def vec4 (a : Vec3) (w : ℚ) : Vec4 := ⟨a.x, a.y, a.z, w⟩

/-- `scene.vmul` — component-wise product. -/
def vmul (a b : Vec3) : Vec3 := ⟨a.x * b.x, a.y * b.y, a.z * b.z⟩

end Vec3

namespace Vec4

/-- `mgl32.Vec4.Vec3` — drop the w component. -/
def vec3 (a : Vec4) : Vec3 := ⟨a.x, a.y, a.z⟩

/-- Squared euclidean length of a 4-vector (`v.Len()` is `fsqrt` of this). -/
def normSq (a : Vec4) : ℚ := a.x * a.x + a.y * a.y + a.z * a.z + a.w * a.w

end Vec4

/-! ## 4×4 matrices (`mgl32.Mat4`)

`mgl32` stores matrices column-major; all claims concern the mathematical
matrix, so we model a `Mat4` as its function of (row, column).  `Mul4` is the
ordinary matrix product; the translation components of an `mgl32.Mat4` (array
slots 12,13,14) are rows 0–2 of column 3. -/

def Mat4 := Fin 4 → Fin 4 → ℚ

namespace Mat4

instance : DecidableEq Mat4 := inferInstanceAs (DecidableEq (Fin 4 → Fin 4 → ℚ))

/-- `mgl32.Ident4`. -/
def ident : Mat4 := fun i j => if i = j then 1 else 0

/-- `mgl32.Mat4.Mul4` — matrix product. -/
def mul (a b : Mat4) : Mat4 := fun i j => ∑ k : Fin 4, a i k * b k j

/-- `mgl32.Translate3D`. -/
def translate3D (tx ty tz : ℚ) : Mat4 := fun i j =>
  if i = j then 1
  else if j = 3 then
    if i = 0 then tx else if i = 1 then ty else if i = 2 then tz else 0
  else 0

/-- `mgl32.Scale3D`. -/
def scale3D (sx sy sz : ℚ) : Mat4 := fun i j =>
  if i = j then
    if i = 0 then sx else if i = 1 then sy else if i = 2 then sz else 1
  else 0

/-- `mgl32.Mat4.Mul4x1` — matrix times column vector. -/
def mul4x1 (m : Mat4) (v : Vec4) : Vec4 :=
  let f : Fin 4 → ℚ := fun k => match k with
    | 0 => v.x | 1 => v.y | 2 => v.z | 3 => v.w
  ⟨∑ k : Fin 4, m 0 k * f k, ∑ k : Fin 4, m 1 k * f k,
   ∑ k : Fin 4, m 2 k * f k, ∑ k : Fin 4, m 3 k * f k⟩

/-- Rows 0–2 of column 3: the translation part (`mgl32` array slots 12–14). -/
def tcol (m : Mat4) : Vec3 := ⟨m 0 3, m 1 3, m 2 3⟩

end Mat4

/-! ## Scene graph transform state (`scene.Transform`, part_009)

`Group.Scale/Translate` and `Item.Scale/Translate` have identical bodies, so
both are modelled once over the shared `Transform` state (matrix plus
cumulative scale vector). -/

/-- `scene.Transform`: combined transformation matrix and scaling vector. -/
structure Transform where
  mat : Mat4
  scale : Vec3

/-- `scene.NewTransform(mgl32.Ident4())`, the initial transform of
`NewItem` and `NewGroup`. -/
def Transform.identity : Transform := ⟨Mat4.ident, ⟨1, 1, 1⟩⟩

/-- `(*Item).Scale` / `(*Group).Scale`:
`o.Transform.Mat4 = o.Mul4(mgl32.Scale3D(sx,sy,sz))` and the cumulative
scale vector is multiplied component-wise. -/
def Transform.scaleBy (t : Transform) (sx sy sz : ℚ) : Transform :=
  { mat := t.mat.mul (Mat4.scale3D sx sy sz)
    scale := t.scale.vmul ⟨sx, sy, sz⟩ }

/-- `(*Item).Translate` / `(*Group).Translate`:
`o.Mul4(mgl32.Translate3D(trX/o.Transform.Scale[0], trY/…, trZ/…))`. -/
def Transform.translateBy (t : Transform) (tx ty tz : ℚ) : Transform :=
  { mat := t.mat.mul (Mat4.translate3D (tx / t.scale.x) (ty / t.scale.y) (tz / t.scale.z))
    scale := t.scale }

/-! ## Lights (`scene`, part_008) -/

/-- `scene.Light`: `Pos.W()` is the attenuation, or 0 for a directional
light; `posw` is the homogeneous coordinate used when transforming the
position into camera space. -/
structure Light where
  pos : Vec4
  col : Vec4
  isOn : Bool
  posw : ℚ
deriving DecidableEq, Repr

/-- `scene.DirectionalLight`.  The source converts a `glu.Polar` direction
(of radius forced to 1) to Cartesian via `direction.Vec4(0)`; the
Polar-to-Cartesian conversion lives in the `glu` package (not under `src/`)
and touches only the xyz components, so the converted direction vector is
taken as the argument here.  The `posw` field is left at its zero value, as
in the source. -/
def directionalLight (direction : Vec3) (color : Vec3) (ambient : ℚ) : Light :=
  { pos := direction.vec4 0, col := color.vec4 ambient, isOn := true, posw := 0 }

/-- `scene.PointLight`. -/
def pointLight (color : Vec3) (ambient : ℚ) (position : Vec3) (attenuation : ℚ) : Light :=
  { pos := position.vec4 attenuation, col := color.vec4 ambient, isOn := true, posw := 1 }

/-- The body of `(*View).addLight` for a non-nil, switched-on light:
`light.Pos = trans.Mul4x1(l.Pos.Vec3().Vec4(l.posw)); light.Pos[3] = l.Pos[3]`. -/
def Light.transformBy (l : Light) (trans : Mat4) : Light :=
  { l with pos := { trans.mul4x1 (l.pos.vec3.vec4 l.posw) with w := l.pos.w } }

/-- `(*View).addLight`: append the camera-space copy of a non-nil,
switched-on light to the per-frame light list. -/
def addLight (ldata : List Light) (l : Option Light) (trans : Mat4) : List Light :=
  match l with
  | none => ldata
  | some l => if l.isOn then ldata ++ [l.transformBy trans] else ldata

/-! ## The mesh builder (`mesh/mesh.go`)

Go maps are modelled as insertion-ordered association lists.  The source's
`vdata []float32` is a concatenation of `vertexSize = 11` float records and
all indexing is by record (`len(m.vdata) / vertexSize`); it is modelled as
the list of those 11-float records.  The source panics on a vertex or
normal index of 0 and on out-of-range indices; the model returns a zero
default there and the theorems below restrict to valid indices. -/

/-- `mesh.epsilon = 1e-6`. -/
def epsilon : ℚ := 1 / 1000000

/-- `mesh.El`: a (vertex, texcoord, normal) index triple (1-based, negative
means relative to the end of the pool, 0 means absent). -/
structure El where
  vert : ℤ
  tex : ℤ
  norm : ℤ
deriving DecidableEq, Repr

/-- `mesh.el2`: an `El` plus the tangent index assigned at `AddFace` time. -/
structure El2 where
  el : El
  tang : ℤ
deriving DecidableEq, Repr

def El2.withNorm (e : El2) (idx : ℤ) : El2 := { e with el := { e.el with norm := idx } }

/-- `mesh.runningMean` — incremental mean of the pushed vectors. -/
structure RunningMean where
  count : ℚ
  mean : Vec3
  oldM : Vec3
deriving DecidableEq, Repr

/-- The zero `&runningMean{}` created on first use. -/
def RunningMean.init : RunningMean := ⟨0, Vec3.zero, Vec3.zero⟩

/-- `(*runningMean).push`. -/
def RunningMean.push (s : RunningMean) (val : Vec3) : RunningMean :=
  let count := s.count + 1
  let mean := s.oldM.add ((val.sub s.oldM).mul (1 / count))
  ⟨count, mean, mean⟩

/-- Association list lookup (Go map read). -/
def alistLookup {α β : Type} [DecidableEq α] : List (α × β) → α → Option β
  | [], _ => none
  | (a, b) :: t, k => if a = k then some b else alistLookup t k

/-- Association list store (Go map write): update in place or append. -/
def alistInsert {α β : Type} [DecidableEq α] : List (α × β) → α → β → List (α × β)
  | [], k, v => [(k, v)]
  | (a, b) :: t, k, v => if a = k then (a, v) :: t else (a, b) :: alistInsert t k v

/-- `mesh.normalCache`. -/
structure NormalCache where
  vert2norm : List (ℤ × RunningMean)
  elem2vert : List (ℕ × ℤ)
  smooth : Bool
deriving DecidableEq, Repr

/-- `mesh.newNormalCache`. -/
def newNormalCache (smooth : Bool) : NormalCache := ⟨[], [], smooth⟩

/-- `n.vert2norm[el.Vert]` creation plus `push` in `normalCache.add`. -/
def pushRM (l : List (ℤ × RunningMean)) (k : ℤ) (v : Vec3) : List (ℤ × RunningMean) :=
  match alistLookup l k with
  | none => alistInsert l k (RunningMean.init.push v)
  | some rm => alistInsert l k (rm.push v)

/-- `mesh.meshGroup` (the GL-side `mtl`/`earray` fields are outside this
pure model; material association is by `mtlName`, as assigned by `Build`). -/
structure MeshGroup where
  mtlName : String
  edata : List ℕ
deriving DecidableEq, Repr

/-- `mesh.Mesh`.  `vdata` is the deduplicated vertex buffer as a list of
11-float records. -/
structure Mesh where
  inverted : ℤ
  vdata : List (List ℚ)
  groups : List MeshGroup
  vertices : List Vec3
  normals : List Vec3
  texcoords : List Vec2
  tangents : List Vec3
  elements : List El2
  ncache : NormalCache
  pointSize : ℤ
deriving DecidableEq, Repr

namespace Mesh

/-- `mesh.New` (the current variant starts with smoothing off). -/
def new : Mesh := ⟨0, [], [], [], [], [], [], [], newNormalCache false, 0⟩

/-- `(*Mesh).AddVertex` — returns the mesh and the new 1-based index. -/
def addVertex (m : Mesh) (x y z : ℚ) : Mesh × ℤ :=
  let vs := m.vertices ++ [⟨x, y, z⟩]
  ({ m with vertices := vs }, vs.length)

/-- `(*Mesh).AddNormal`. -/
def addNormal (m : Mesh) (nx ny nz : ℚ) : Mesh × ℤ :=
  let ns := m.normals ++ [⟨nx, ny, nz⟩]
  ({ m with normals := ns }, ns.length)

/-- `(*Mesh).AddTexCoord`. -/
def addTexCoord (m : Mesh) (tx ty : ℚ) : Mesh × ℤ :=
  let ts := m.texcoords ++ [⟨tx, ty⟩]
  ({ m with texcoords := ts }, ts.length)

/-- `(*Mesh).vertex`: 1-based, negative relative to the end (source panics
on 0 and out of range; the model returns zero there). -/
def vertexAt (m : Mesh) (n : ℤ) : Vec3 :=
  if 0 < n then m.vertices.getD (n - 1).toNat Vec3.zero
  else if n < 0 then m.vertices.getD (m.vertices.length + n).toNat Vec3.zero
  else Vec3.zero

/-- `(*Mesh).texcoord`: index 0 legitimately denotes "no texture
coordinate" and yields the zero value. -/
def texcoordAt (m : Mesh) (n : ℤ) : Vec2 :=
  if 0 < n then m.texcoords.getD (n - 1).toNat ⟨0, 0⟩
  else if n < 0 then m.texcoords.getD (m.texcoords.length + n).toNat ⟨0, 0⟩
  else ⟨0, 0⟩

/-- `(*Mesh).normal` (source panics on 0 and out of range; the model
returns zero there). -/
def normalAt (m : Mesh) (n : ℤ) : Vec3 :=
  if 0 < n then m.normals.getD (n - 1).toNat Vec3.zero
  else if n < 0 then m.normals.getD (m.normals.length + n).toNat Vec3.zero
  else Vec3.zero

end Mesh

/-- `mesh.getTangent`: tangent vector of a triangle from its first three
vertices and texture coordinates, `none` when degenerate in texture space. -/
def getTangent (vtx : List Vec3) (tex : List Vec2) : Option Vec3 :=
  let t0 := tex.getD 0 ⟨0, 0⟩
  let t1 := tex.getD 1 ⟨0, 0⟩
  let t2 := tex.getD 2 ⟨0, 0⟩
  let dy1 := t1.y - t0.y
  let dy2 := t2.y - t0.y
  let f := (t1.x - t0.x) * dy2 - (t2.x - t0.x) * dy1
  if |dy1| < epsilon ∨ |dy2| < epsilon ∨ |f| < epsilon then none
  else
    let edge1 := (vtx.getD 1 Vec3.zero).sub (vtx.getD 0 Vec3.zero)
    let edge2 := (vtx.getD 2 Vec3.zero).sub (vtx.getD 0 Vec3.zero)
    some (((edge1.mul (dy2 / f)).sub (edge2.mul (dy1 / f))).normalize)

/-- Newell's method over the face's edges (`AddFace`, quad branch). -/
def newell (vtx : List Vec3) : Vec3 :=
  (List.range vtx.length).foldl
    (fun normal i =>
      let v := vtx.getD i Vec3.zero
      let v1 := vtx.getD ((i + 1) % vtx.length) Vec3.zero
      normal.add ⟨(v.y - v1.y) * (v.z + v1.z), (v.z - v1.z) * (v.x + v1.x),
        (v.x - v1.x) * (v.y + v1.y)⟩)
    Vec3.zero

namespace Mesh

/-- `(*Mesh).addElements`: append the elements tagged with the tangent. -/
def addElements (m : Mesh) (ntangent : ℤ) (els : List El) : Mesh :=
  { m with elements := m.elements ++ els.map (fun el => ⟨el, ntangent⟩) }

/-- `normalCache.add`: with smoothing, push the face normal into the
per-vertex running mean and remember each element's vertex; without, store
the face normal as one new mesh normal shared by all the face's elements. -/
def ncacheAdd (m : Mesh) (norm : Vec3) (base : ℕ) (els : List El) : Mesh :=
  if m.ncache.smooth then
    let v2n := els.foldl (fun acc el => pushRM acc el.vert norm) m.ncache.vert2norm
    let e2v := m.ncache.elem2vert ++ els.enum.map (fun p => (base + p.1, p.2.vert))
    { m with ncache := { m.ncache with vert2norm := v2n, elem2vert := e2v } }
  else
    let (m1, idx) := m.addNormal norm.x norm.y norm.z
    { m1 with
      elements := m1.elements.take base
        ++ ((m1.elements.drop base).take els.length).map (fun e => e.withNorm idx)
        ++ m1.elements.drop (base + els.length) }

/-- One step of `normalCache.build` for the registered pair
`p = (element index, vertex id)`: append the accumulated running-mean
normal for the vertex and point the element at it. -/
def ncacheBuildStep (m : Mesh) (p : ℕ × ℤ) : Mesh :=
  let norm := match alistLookup m.ncache.vert2norm p.2 with
    | some rm => rm.mean
    | none => Vec3.zero
  let r := m.addNormal norm.x norm.y norm.z
  { r.1 with
    elements := r.1.elements.take p.1
      ++ ((r.1.elements.drop p.1).take 1).map (fun e => e.withNorm r.2)
      ++ r.1.elements.drop (p.1 + 1) }

/-- `normalCache.build`: append the accumulated running-mean normal for
each registered element and point the element at it. -/
def ncacheBuild (m : Mesh) : Mesh :=
  m.ncache.elem2vert.foldl ncacheBuildStep m

/-- The tangent sub-step of `AddFace`: when every element has a texture
coordinate and the triangle is non-degenerate in texture space, append the
tangent and return its 1-based index, else index 0. -/
def faceTangentStep (m : Mesh) (els : List El) : Mesh × ℤ :=
  if els.all (fun e => e.tex ≠ 0) then
    match getTangent (els.map (fun e => m.vertexAt e.vert))
        (els.map (fun e => if e.tex = 0 then ⟨0, 0⟩ else m.texcoordAt e.tex)) with
    | some tangent => ({ m with tangents := m.tangents ++ [tangent] },
        (m.tangents.length + 1 : ℤ))
    | none => (m, 0)
  else (m, 0)

/-- `(*Mesh).AddFace` — a triangular or a quad face; anything else panics
in the source (`none` here). -/
def addFace (m : Mesh) (els : List El) : Option Mesh :=
  let calcNormal := els.any (fun e => e.norm = 0)
  let vtx := els.map (fun e => m.vertexAt e.vert)
  let base := m.elements.length
  let tg : Mesh × ℤ := faceTangentStep m els
  if els.length = 3 then
    let m1 := tg.1.addElements tg.2 els
    some (if calcNormal then
        let normal := ((vtx.getD 1 Vec3.zero).sub (vtx.getD 0 Vec3.zero)).cross
          ((vtx.getD 2 Vec3.zero).sub (vtx.getD 0 Vec3.zero))
        m1.ncacheAdd normal.normalize base els
      else m1)
  else if els.length = 4 then
    let d : El := ⟨0, 0, 0⟩
    let elquad := [els.getD 0 d, els.getD 1 d, els.getD 2 d,
      els.getD 0 d, els.getD 2 d, els.getD 3 d]
    let m1 := tg.1.addElements tg.2 elquad
    some (if calcNormal then m1.ncacheAdd (newell vtx).normalize base elquad else m1)
  else none

/-- `(*Mesh).SetNormalSmoothing`: flush the pending running means, then
start a new smoothing group. -/
def setNormalSmoothing (m : Mesh) (flag : Bool) : Mesh :=
  { ncacheBuild m with ncache := newNormalCache flag }

/-- `(*Mesh).getData`: resolve an element into its flat 11-float record
(position, normal, texcoord, tangent — tangent zero when absent). -/
def getData (m : Mesh) (e : El2) : List ℚ :=
  let v := m.vertexAt e.el.vert
  let vn := m.normalAt e.el.norm
  let vt := m.texcoordAt e.el.tex
  let tg := if 0 < e.tang then m.tangents.getD (e.tang - 1).toNat Vec3.zero else Vec3.zero
  [v.x, v.y, v.z, vn.x, vn.y, vn.z, vt.x, vt.y, tg.x, tg.y, tg.z]

/-- One step of `Build`'s dedup loop over the accumulated elements: on a
cache miss the element's record is appended to the vertex buffer at index
`len(vdata)` (in records); either way the index goes to the group's element
list. -/
def buildStep (g : El2 → List ℚ)
    (acc : List (List ℚ) × List ℕ × List (El2 × ℕ)) (el : El2) :
    List (List ℚ) × List ℕ × List (El2 × ℕ) :=
  match alistLookup acc.2.2 el with
  | some index => (acc.1, acc.2.1 ++ [index], acc.2.2)
  | none => (acc.1 ++ [g el], acc.2.1 ++ [acc.1.length],
      alistInsert acc.2.2 el acc.1.length)

/-- `(*Mesh).Build`: resolve pending normals, deduplicate the accumulated
elements against the running vertex buffer (cache keyed on the `el2` index
tuple, per Build call), and close a render group named after the material. -/
def build (m : Mesh) (materialName : String) : Mesh :=
  let mtlName := if materialName = "" then
      (if m.pointSize ≠ 0 then "point" else "diffuse") else materialName
  let m1 := ncacheBuild m
  let acc := m1.elements.foldl (buildStep m1.getData) (m1.vdata, [], [])
  { m1 with
    vdata := acc.1
    groups := m1.groups ++ [⟨mtlName, acc.2.1⟩]
    elements := []
    ncache := newNormalCache true }

/-- `(*Mesh).Clear`. -/
def clear (m : Mesh) : Mesh :=
  { m with
    vertices := []
    normals := []
    texcoords := []
    tangents := []
    elements := []
    ncache := newNormalCache true }

/-- `Invert`'s copy loop from flat offset `i` on: negate the components at
offsets 3,4,5 of the record. -/
def negNormAux : ℕ → List ℚ → List ℚ
  | _, [] => []
  | i, x :: t => (if i = 3 ∨ i = 4 ∨ i = 5 then -x else x) :: negNormAux (i + 1) t

/-- One 11-float record of `Invert`'s copy loop: negate the three normal
components (flat offsets 3,4,5 of the record). -/
def negNormRec (r : List ℚ) : List ℚ := negNormAux 0 r

/-- `(*Mesh).Invert`: a copy of the mesh with the winding selector flipped
and a freshly copied vertex buffer whose normal components are negated
(the receiver is not written to — the loop writes only into the fresh
copy `newMesh.vdata`, which is why this is a pure function of `m`). -/
def invert (m : Mesh) : Mesh :=
  { m with inverted := 1 - m.inverted, vdata := m.vdata.map negNormRec }

end Mesh

/-! ## Claim C1 -/

/-- **C1.**  For every scene-graph node (Group and Item share the
`Transform.scaleBy`/`Transform.translateBy` bodies), `Translate` composes a
translation matrix whose components are divided by the cumulative scale, so
that starting from the identity transform, `Scale(sx,sy,sz).Translate(tx,ty,tz)`
yields a local matrix whose translation column is exactly `(tx,ty,tz)` —
in particular `Scale(2,2,2).Translate(1,0,0)` gives translation `(1,0,0)`,
not `(1/2,0,0)` and not `(2,0,0)`. -/
theorem translate_after_scale_exact (sx sy sz tx ty tz : ℚ)
    (hx : sx ≠ 0) (hy : sy ≠ 0) (hz : sz ≠ 0) :
    (((Transform.identity).scaleBy sx sy sz).translateBy tx ty tz).mat.tcol
      = ⟨tx, ty, tz⟩ := by
  have hbase : (Transform.identity.scaleBy sx sy sz).mat = Mat4.scale3D sx sy sz := by
    funext i j
    simp only [Transform.identity, Transform.scaleBy, Mat4.mul, Mat4.ident,
      Fin.sum_univ_four]
    fin_cases i <;> fin_cases j <;> simp
  have hscale : (Transform.identity.scaleBy sx sy sz).scale = ⟨sx, sy, sz⟩ := by
    simp [Transform.identity, Transform.scaleBy, Vec3.vmul]
  simp only [Transform.translateBy, hbase, hscale, Mat4.tcol, Mat4.mul,
    Fin.sum_univ_four]
  show (⟨Mat4.scale3D sx sy sz 0 0 * Mat4.translate3D (tx / sx) (ty / sy) (tz / sz) 0 3
          + Mat4.scale3D sx sy sz 0 1 * Mat4.translate3D (tx / sx) (ty / sy) (tz / sz) 1 3
          + Mat4.scale3D sx sy sz 0 2 * Mat4.translate3D (tx / sx) (ty / sy) (tz / sz) 2 3
          + Mat4.scale3D sx sy sz 0 3 * Mat4.translate3D (tx / sx) (ty / sy) (tz / sz) 3 3, _, _⟩ : Vec3)
        = ⟨tx, ty, tz⟩
  simp only [show ∀ a b c, Mat4.scale3D a b c 0 0 = a from fun _ _ _ => rfl,
    show ∀ a b c, Mat4.scale3D a b c 0 1 = 0 from fun _ _ _ => rfl,
    show ∀ a b c, Mat4.scale3D a b c 0 2 = 0 from fun _ _ _ => rfl,
    show ∀ a b c, Mat4.scale3D a b c 0 3 = 0 from fun _ _ _ => rfl,
    show ∀ a b c, Mat4.scale3D a b c 1 0 = 0 from fun _ _ _ => rfl,
    show ∀ a b c, Mat4.scale3D a b c 1 1 = b from fun _ _ _ => rfl,
    show ∀ a b c, Mat4.scale3D a b c 1 2 = 0 from fun _ _ _ => rfl,
    show ∀ a b c, Mat4.scale3D a b c 1 3 = 0 from fun _ _ _ => rfl,
    show ∀ a b c, Mat4.scale3D a b c 2 0 = 0 from fun _ _ _ => rfl,
    show ∀ a b c, Mat4.scale3D a b c 2 1 = 0 from fun _ _ _ => rfl,
    show ∀ a b c, Mat4.scale3D a b c 2 2 = c from fun _ _ _ => rfl,
    show ∀ a b c, Mat4.scale3D a b c 2 3 = 0 from fun _ _ _ => rfl,
    show ∀ a b c, Mat4.translate3D a b c 0 3 = a from fun _ _ _ => rfl,
    show ∀ a b c, Mat4.translate3D a b c 1 3 = b from fun _ _ _ => rfl,
    show ∀ a b c, Mat4.translate3D a b c 2 3 = c from fun _ _ _ => rfl,
    show ∀ a b c, Mat4.translate3D a b c 3 3 = 1 from fun _ _ _ => rfl]
  have e1 : sx * (tx / sx) + 0 * (ty / sy) + 0 * (tz / sz) + 0 * 1 = tx := by
    field_simp
  have e2 : 0 * (tx / sx) + sy * (ty / sy) + 0 * (tz / sz) + 0 * 1 = ty := by
    field_simp
  have e3 : 0 * (tx / sx) + 0 * (ty / sy) + sz * (tz / sz) + 0 * 1 = tz := by
    field_simp
  rw [e1, e2, e3]

/-- Witness for C1 at the concrete call chain
`Item().Scale(2,2,2).Translate(1,0,0)`: the translation column is exactly
`(1,0,0)`, which differs from both `(1/2,0,0)` and `(2,0,0)`. -/
theorem translate_after_scale_exact_witness :
    (((Transform.identity).scaleBy 2 2 2).translateBy 1 0 0).mat.tcol
        = ⟨1, 0, 0⟩
      ∧ (⟨1, 0, 0⟩ : Vec3) ≠ ⟨1/2, 0, 0⟩ ∧ (⟨1, 0, 0⟩ : Vec3) ≠ ⟨2, 0, 0⟩ :=
  ⟨translate_after_scale_exact 2 2 2 1 0 0 (by norm_num) (by norm_num) (by norm_num),
   by norm_num, by norm_num⟩

/-! ## Claim C7 -/

/-- **C7.**  A directional light is built with position w = 0 and a point
light with position w = attenuation; `addLight` (for any switched-on light
and any world-to-camera matrix) keeps the position's w component exactly,
and an identity view matrix keeps the whole position — the camera-space
transform can only perturb the xyz part, never the w tag the shader
branches on. -/
theorem light_w_discrimination (dir color pos : Vec3) (ambient att : ℚ)
    (l : Light) (trans : Mat4) (hOn : l.isOn = true) :
    (directionalLight dir color ambient).pos.w = 0
      ∧ (pointLight color ambient pos att).pos.w = att
      ∧ addLight [] (some l) trans = [l.transformBy trans]
      ∧ (l.transformBy trans).pos.w = l.pos.w
      ∧ l.transformBy Mat4.ident = l := by
  refine ⟨rfl, rfl, by simp [addLight, hOn], rfl, ?_⟩
  have hmul : Mat4.ident.mul4x1 (l.pos.vec3.vec4 l.posw) = l.pos.vec3.vec4 l.posw := by
    simp [Mat4.mul4x1, Mat4.ident, Fin.sum_univ_four, Vec3.vec4, Vec4.vec3]
  show { l with pos := { Mat4.ident.mul4x1 (l.pos.vec3.vec4 l.posw) with w := l.pos.w } } = l
  rw [hmul]
  rfl

/-- Witness for C7: a concrete directional light (w = 0) and point light
(w = attenuation 1/2), the latter pushed through `addLight` with the
identity view matrix, keep their w tags and (for the identity matrix) their
entire positions. -/
theorem light_w_discrimination_witness :
    (directionalLight ⟨0, 0, 1⟩ ⟨1, 1, 1⟩ (1/10)).pos.w = 0
      ∧ (pointLight ⟨1, 1, 1⟩ (1/10) ⟨3, 4, 5⟩ (1/2)).pos.w = 1/2
      ∧ (pointLight ⟨1, 1, 1⟩ (1/10) ⟨3, 4, 5⟩ (1/2)).transformBy Mat4.ident
          = pointLight ⟨1, 1, 1⟩ (1/10) ⟨3, 4, 5⟩ (1/2) := by
  obtain ⟨h1, h2, _, _, h5⟩ :=
    light_w_discrimination ⟨0, 0, 1⟩ ⟨1, 1, 1⟩ ⟨3, 4, 5⟩ (1/10) (1/2)
      (pointLight ⟨1, 1, 1⟩ (1/10) ⟨3, 4, 5⟩ (1/2)) Mat4.ident rfl
  exact ⟨h1, h2, h5⟩

/-! ## Claim C5 -/

theorem negNormAux_involution (i : ℕ) (r : List ℚ) :
    Mesh.negNormAux i (Mesh.negNormAux i r) = r := by
  induction r generalizing i with
  | nil => rfl
  | cons x t ih =>
    by_cases h : i = 3 ∨ i = 4 ∨ i = 5 <;>
      simp [Mesh.negNormAux, h, ih]

/-- **C5.**  `Invert` is an involution: `Invert(Invert(m))` restores the
winding selector and every vertex record — in particular all three normal
components of every record carry their original signs.  `invert` writes
only into the freshly copied buffer, so `m` itself is untouched (in this
pure model, `invert` is a function of `m`, mirroring that the source loop
writes only `newMesh.vdata`). -/
theorem invert_invert (m : Mesh) : m.invert.invert = m := by
  have hrec : ∀ r, Mesh.negNormRec (Mesh.negNormRec r) = r := fun r =>
    negNormAux_involution 0 r
  have hcomp : Mesh.negNormRec ∘ Mesh.negNormRec = id := funext hrec
  cases m with
  | mk inv vdata groups vs ns ts tgs els nc ps =>
    simp [Mesh.invert, List.map_map, hcomp]

/-! ## Claim C3 -/

/-- The tangent sub-step of `AddFace` only ever touches the tangent pool:
every other field of the mesh is returned unchanged. -/
theorem faceTangentStep_fields (m : Mesh) (els : List El) :
    (Mesh.faceTangentStep m els).1.inverted = m.inverted
    ∧ (Mesh.faceTangentStep m els).1.vdata = m.vdata
    ∧ (Mesh.faceTangentStep m els).1.groups = m.groups
    ∧ (Mesh.faceTangentStep m els).1.vertices = m.vertices
    ∧ (Mesh.faceTangentStep m els).1.normals = m.normals
    ∧ (Mesh.faceTangentStep m els).1.texcoords = m.texcoords
    ∧ (Mesh.faceTangentStep m els).1.elements = m.elements
    ∧ (Mesh.faceTangentStep m els).1.ncache = m.ncache
    ∧ (Mesh.faceTangentStep m els).1.pointSize = m.pointSize := by
  unfold Mesh.faceTangentStep
  split
  · split <;> simp
  · simp

/-- The concrete mesh of C3's counterexample: the four corners of the unit
square and one explicit normal. -/
def quadMesh : Mesh :=
  let m := (Mesh.new.addVertex 0 0 0).1
  let m := (m.addVertex 1 0 0).1
  let m := (m.addVertex 1 1 0).1
  let m := (m.addVertex 0 1 0).1
  (m.addNormal 0 0 1).1

/-- **C3 counterexample.**  The claim says a quad (A,B,C,D) is decomposed
into the triangles (A,B,C) and (C,D,A) *in that element order*, i.e. the
emitted element list is A,B,C,C,D,A.  The code emits A,B,C,A,C,D — the
second triangle is the cyclic rotation (A,C,D) — so the fourth emitted
element is A, not C.  (Explicit normal indices are used so that the order
is observed in isolation from the normal machinery.) -/
theorem quad_decomposition_counterexample :
    (quadMesh.addFace [⟨1, 0, 1⟩, ⟨2, 0, 1⟩, ⟨3, 0, 1⟩, ⟨4, 0, 1⟩]).map
        (fun m => m.elements.map (fun e => e.el))
      = some [⟨1, 0, 1⟩, ⟨2, 0, 1⟩, ⟨3, 0, 1⟩, ⟨1, 0, 1⟩, ⟨3, 0, 1⟩, ⟨4, 0, 1⟩]
    ∧ ([⟨1, 0, 1⟩, ⟨2, 0, 1⟩, ⟨3, 0, 1⟩, ⟨1, 0, 1⟩, ⟨3, 0, 1⟩, ⟨4, 0, 1⟩] : List El)
      ≠ [⟨1, 0, 1⟩, ⟨2, 0, 1⟩, ⟨3, 0, 1⟩, ⟨3, 0, 1⟩, ⟨4, 0, 1⟩, ⟨1, 0, 1⟩] :=
  ⟨rfl, by decide⟩

/-- **C3 amended.**  A quad face (A,B,C,D) is decomposed into the two
triangles (A,B,C) and (A,C,D) in that element order — (A,C,D) is the
cyclic rotation of (C,D,A), the same triangle with the same winding — and
when the elements carry no explicit normal index under flat-normal
(smoothing off) mode, exactly one normal, computed by Newell's method over
the quad's four edges, is appended and shared by all six emitted
elements. -/
theorem quad_decomposition_amended (m : Mesh) (e0 e1 e2 e3 : El)
    (hsm : m.ncache.smooth = false)
    (h0 : e0.norm = 0) (_h1 : e1.norm = 0) (_h2 : e2.norm = 0) (_h3 : e3.norm = 0) :
    m.addFace [e0, e1, e2, e3]
      = some { (Mesh.faceTangentStep m [e0, e1, e2, e3]).1 with
          normals := m.normals
            ++ [(newell ([e0, e1, e2, e3].map (fun e => m.vertexAt e.vert))).normalize]
          elements := m.elements ++ ([e0, e1, e2, e0, e2, e3].map (fun e =>
            ⟨{ e with norm := (m.normals.length + 1 : ℤ) },
              (Mesh.faceTangentStep m [e0, e1, e2, e3]).2⟩)) } := by
  obtain ⟨-, -, -, -, htgN, -, htgE, htgC, -⟩ :=
    faceTangentStep_fields m [e0, e1, e2, e3]
  simp only [Mesh.addFace, List.length_cons, List.length_nil, Mesh.addElements,
    Mesh.ncacheAdd, Mesh.addNormal, htgC, hsm, List.any_cons, List.any_nil,
    h0, List.getD]
  norm_num
  rw [htgE, htgN]
  refine ⟨rfl, ?_⟩
  rw [List.take_left, List.drop_left' (List.length_map _ _), List.drop_append 6]
  simp [El2.withNorm]

/-- Witness for the amended C3 at a concrete quad over `quadMesh`: all four
elements carry no normal index, smoothing is off. -/
theorem quad_decomposition_amended_witness :
    quadMesh.addFace [⟨1, 0, 0⟩, ⟨2, 0, 0⟩, ⟨3, 0, 0⟩, ⟨4, 0, 0⟩]
      = some { (Mesh.faceTangentStep quadMesh
            [⟨1, 0, 0⟩, ⟨2, 0, 0⟩, ⟨3, 0, 0⟩, ⟨4, 0, 0⟩]).1 with
          normals := quadMesh.normals
            ++ [(newell (([⟨1, 0, 0⟩, ⟨2, 0, 0⟩, ⟨3, 0, 0⟩, ⟨4, 0, 0⟩] : List El).map
                  (fun e => quadMesh.vertexAt e.vert))).normalize]
          elements := quadMesh.elements
            ++ (([⟨1, 0, 0⟩, ⟨2, 0, 0⟩, ⟨3, 0, 0⟩, ⟨1, 0, 0⟩, ⟨3, 0, 0⟩, ⟨4, 0, 0⟩] : List El).map
                (fun e => ⟨{ e with norm := (quadMesh.normals.length + 1 : ℤ) },
                  (Mesh.faceTangentStep quadMesh
                    [⟨1, 0, 0⟩, ⟨2, 0, 0⟩, ⟨3, 0, 0⟩, ⟨4, 0, 0⟩]).2⟩)) } :=
  quad_decomposition_amended quadMesh ⟨1, 0, 0⟩ ⟨2, 0, 0⟩ ⟨3, 0, 0⟩ ⟨4, 0, 0⟩
    rfl rfl rfl rfl rfl

/-! ## Support lemmas: association lists and list indexing -/

theorem getD_append_left {α : Type} (l₁ l₂ : List α) (i : ℕ) (d : α)
    (h : i < l₁.length) : (l₁ ++ l₂).getD i d = l₁.getD i d := by
  rw [List.getD_eq_getElem?_getD, List.getElem?_append, if_pos h,
    ← List.getD_eq_getElem?_getD]

theorem getD_concat {α : Type} (l : List α) (a d : α) :
    (l ++ [a]).getD l.length d = a := by
  simp [List.getD_append_right, le_refl]

theorem alistLookup_mem {α β : Type} [DecidableEq α] {l : List (α × β)} {k : α}
    {v : β} (h : alistLookup l k = some v) : (k, v) ∈ l := by
  induction l with
  | nil => simp [alistLookup] at h
  | cons p t ih =>
    obtain ⟨a, b⟩ := p
    by_cases hk : a = k
    · subst hk
      simp only [alistLookup, if_true, eq_self_iff_true, if_pos] at h
      rw [Option.some.injEq] at h
      subst h
      exact List.mem_cons_self _ _
    · simp only [alistLookup, if_neg hk] at h
      exact List.mem_cons_of_mem _ (ih h)

theorem alistInsert_mem {α β : Type} [DecidableEq α] {l : List (α × β)} {k : α}
    {v : β} {p : α × β} (h : p ∈ alistInsert l k v) : p ∈ l ∨ p = (k, v) := by
  induction l with
  | nil => simpa [alistInsert] using h
  | cons q t ih =>
    obtain ⟨a, b⟩ := q
    by_cases hk : a = k
    · subst hk
      simp only [alistInsert, if_pos rfl] at h
      rcases List.mem_cons.mp h with h | h
      · exact Or.inr (by simpa using h)
      · exact Or.inl (List.mem_cons_of_mem _ h)
    · simp only [alistInsert, if_neg hk] at h
      rcases List.mem_cons.mp h with h | h
      · exact Or.inl (by simp [h])
      · rcases ih h with h | h
        · exact Or.inl (List.mem_cons_of_mem _ h)
        · exact Or.inr h

theorem alistLookup_insert_self {α β : Type} [DecidableEq α] (l : List (α × β))
    (k : α) (v : β) : alistLookup (alistInsert l k v) k = some v := by
  induction l with
  | nil => simp [alistInsert, alistLookup]
  | cons q t ih =>
    obtain ⟨a, b⟩ := q
    by_cases hk : a = k
    · subst hk
      simp [alistInsert, alistLookup]
    · simp [alistInsert, alistLookup, hk, ih]

theorem alistLookup_insert_ne {α β : Type} [DecidableEq α] (l : List (α × β))
    {k k' : α} (v : β) (h : k ≠ k') :
    alistLookup (alistInsert l k v) k' = alistLookup l k' := by
  induction l with
  | nil => simp [alistInsert, alistLookup, h]
  | cons q t ih =>
    obtain ⟨a, b⟩ := q
    by_cases hk : a = k
    · subst hk
      simp [alistInsert, alistLookup, h, if_neg]
    · simp only [alistInsert, if_neg hk, alistLookup]
      by_cases ha : a = k'
      · simp [ha]
      · simp [ha, ih]

/-! ## Pool extension and element stability -/

/-- The vertex and texcoord pools are unchanged and the normal and tangent
pools have only been appended to. -/
def PoolExt (m0 m : Mesh) : Prop :=
  m.vertices = m0.vertices ∧ m.texcoords = m0.texcoords
    ∧ m0.normals <+: m.normals ∧ m0.tangents <+: m.tangents

theorem poolExt_refl (m : Mesh) : PoolExt m m :=
  ⟨rfl, rfl, List.prefix_refl _, List.prefix_refl _⟩

theorem poolExt_trans {m0 m1 m2 : Mesh} (h1 : PoolExt m0 m1) (h2 : PoolExt m1 m2) :
    PoolExt m0 m2 :=
  ⟨h2.1.trans h1.1, h2.2.1.trans h1.2.1, h1.2.2.1.trans h2.2.2.1,
    h1.2.2.2.trans h2.2.2.2⟩

/-- The element's normal and tangent indices are nonnegative and point into
the pools, so later pool appends cannot change how it resolves. -/
def ElOk (m : Mesh) (e : El2) : Prop :=
  0 ≤ e.el.norm ∧ e.el.norm ≤ m.normals.length
    ∧ 0 ≤ e.tang ∧ e.tang ≤ m.tangents.length

theorem elOk_mono {m0 m : Mesh} {e : El2} (hp : PoolExt m0 m) (h : ElOk m0 e) :
    ElOk m e :=
  ⟨h.1, le_trans h.2.1 (by exact_mod_cast hp.2.2.1.length_le),
    h.2.2.1, le_trans h.2.2.2 (by exact_mod_cast hp.2.2.2.length_le)⟩

theorem vertexAt_congr {m0 m : Mesh} (h : m.vertices = m0.vertices) (n : ℤ) :
    m.vertexAt n = m0.vertexAt n := by
  unfold Mesh.vertexAt
  rw [h]

theorem texcoordAt_congr {m0 m : Mesh} (h : m.texcoords = m0.texcoords) (n : ℤ) :
    m.texcoordAt n = m0.texcoordAt n := by
  unfold Mesh.texcoordAt
  rw [h]

theorem prefix_getD {α : Type} {l1 l2 : List α} (h : l1 <+: l2) (i : ℕ) (d : α)
    (hi : i < l1.length) : l2.getD i d = l1.getD i d := by
  obtain ⟨t, rfl⟩ := h
  exact getD_append_left l1 t i d hi

theorem normalAt_ext {m0 m : Mesh} (h : m0.normals <+: m.normals) {n : ℤ}
    (h0 : 0 ≤ n) (hn : n ≤ m0.normals.length) : m.normalAt n = m0.normalAt n := by
  unfold Mesh.normalAt
  rcases lt_or_eq_of_le h0 with hpos | hz
  · rw [if_pos hpos, if_pos hpos]
    refine prefix_getD h _ _ ?_
    omega
  · rw [← hz]
    norm_num

theorem tangentD_ext {m0 m : Mesh} (h : m0.tangents <+: m.tangents) {n : ℤ}
    (h0 : 0 ≤ n) (hn : n ≤ m0.tangents.length) :
    (if 0 < n then m.tangents.getD (n - 1).toNat Vec3.zero else Vec3.zero)
      = (if 0 < n then m0.tangents.getD (n - 1).toNat Vec3.zero else Vec3.zero) := by
  rcases lt_or_eq_of_le h0 with hpos | hz
  · rw [if_pos hpos, if_pos hpos]
    refine prefix_getD h _ _ ?_
    omega
  · rw [← hz]
    norm_num

/-- An element with in-range indices resolves to the same record in any
pool extension of the mesh it was created against. -/
theorem getData_ext {m0 m : Mesh} (hp : PoolExt m0 m) {e : El2} (he : ElOk m0 e) :
    m.getData e = m0.getData e := by
  unfold Mesh.getData
  rw [vertexAt_congr hp.1, texcoordAt_congr hp.2.1,
    normalAt_ext hp.2.2.1 he.1 he.2.1,
    tangentD_ext hp.2.2.2 he.2.2.1 he.2.2.2]

/-! ## The tangent and normal sub-steps of `AddFace`, as functions of the
pools and the face -/

/-- The tangent appended by `faceTangentStep`, determined by the pools and
the face alone. -/
def getTangentOpt (m : Mesh) (els : List El) : Option Vec3 :=
  if els.all (fun e => e.tex ≠ 0) then
    getTangent (els.map (fun e => m.vertexAt e.vert))
      (els.map (fun e => if e.tex = 0 then ⟨0, 0⟩ else m.texcoordAt e.tex))
  else none

theorem faceTangentStep_eq (m : Mesh) (els : List El) :
    Mesh.faceTangentStep m els = match getTangentOpt m els with
      | some t => ({ m with tangents := m.tangents ++ [t] },
          (m.tangents.length + 1 : ℤ))
      | none => (m, 0) := by
  unfold Mesh.faceTangentStep getTangentOpt
  split
  · rfl
  · rfl

theorem getTangentOpt_congr {m0 m : Mesh} (hv : m.vertices = m0.vertices)
    (ht : m.texcoords = m0.texcoords) (els : List El) :
    getTangentOpt m els = getTangentOpt m0 els := by
  unfold getTangentOpt
  have h1 : els.map (fun e => m.vertexAt e.vert)
      = els.map (fun e => m0.vertexAt e.vert) :=
    List.map_congr_left (fun e _ => vertexAt_congr hv e.vert)
  have h2 : els.map (fun e => if e.tex = 0 then (⟨0, 0⟩ : Vec2) else m.texcoordAt e.tex)
      = els.map (fun e => if e.tex = 0 then ⟨0, 0⟩ else m0.texcoordAt e.tex) :=
    List.map_congr_left (fun e _ => by rw [texcoordAt_congr ht])
  rw [h1, h2]

/-- The flat (cross-product) normal of a triangle face, from the pools and
the face. -/
def triNormal (m : Mesh) (els : List El) : Vec3 :=
  let vtx := els.map (fun e => m.vertexAt e.vert)
  (((vtx.getD 1 Vec3.zero).sub (vtx.getD 0 Vec3.zero)).cross
    ((vtx.getD 2 Vec3.zero).sub (vtx.getD 0 Vec3.zero))).normalize

/-- The flat (Newell) normal of a quad face, from the pools and the face. -/
def quadNormal (m : Mesh) (els : List El) : Vec3 :=
  (newell (els.map (fun e => m.vertexAt e.vert))).normalize

theorem triNormal_congr {m0 m : Mesh} (hv : m.vertices = m0.vertices)
    (els : List El) : triNormal m els = triNormal m0 els := by
  unfold triNormal
  rw [List.map_congr_left (fun e _ => vertexAt_congr hv e.vert)]

theorem quadNormal_congr {m0 m : Mesh} (hv : m.vertices = m0.vertices)
    (els : List El) : quadNormal m els = quadNormal m0 els := by
  unfold quadNormal
  rw [List.map_congr_left (fun e _ => vertexAt_congr hv e.vert)]

/-! ## Shape of a single `AddFace` call, per branch -/

theorem addFace_tri_flat (m : Mesh) (a b c : El) (hsm : m.ncache.smooth = false)
    (hcn : ([a, b, c].any fun e => decide (e.norm = 0)) = true) :
    m.addFace [a, b, c]
      = some { (Mesh.faceTangentStep m [a, b, c]).1 with
          normals := m.normals ++ [triNormal m [a, b, c]]
          elements := m.elements ++ ([a, b, c].map (fun e =>
            ⟨{ e with norm := (m.normals.length + 1 : ℤ) },
              (Mesh.faceTangentStep m [a, b, c]).2⟩)) } := by
  obtain ⟨-, -, -, -, htgN, -, htgE, htgC, -⟩ := faceTangentStep_fields m [a, b, c]
  simp only [Mesh.addFace, List.length_cons, List.length_nil, Mesh.addElements,
    Mesh.ncacheAdd, Mesh.addNormal, htgC, hsm, hcn, triNormal,
    List.getD_cons_zero, List.getD_cons_succ, List.map_cons, List.map_nil]
  norm_num
  rw [htgE, htgN]
  refine ⟨rfl, ?_⟩
  rw [List.take_left, List.drop_left' (by simp), List.drop_append 3]
  simp [El2.withNorm]

theorem addFace_tri_expl (m : Mesh) (a b c : El)
    (hcn : ([a, b, c].any fun e => decide (e.norm = 0)) = false) :
    m.addFace [a, b, c]
      = some { (Mesh.faceTangentStep m [a, b, c]).1 with
          elements := m.elements ++ ([a, b, c].map (fun e =>
            ⟨e, (Mesh.faceTangentStep m [a, b, c]).2⟩)) } := by
  obtain ⟨-, -, -, -, -, -, htgE, -, -⟩ := faceTangentStep_fields m [a, b, c]
  simp only [Mesh.addFace, List.length_cons, List.length_nil, Mesh.addElements,
    hcn, List.map_cons, List.map_nil]
  norm_num
  rw [htgE]

theorem addFace_quad_flat (m : Mesh) (a b c d : El) (hsm : m.ncache.smooth = false)
    (hcn : ([a, b, c, d].any fun e => decide (e.norm = 0)) = true) :
    m.addFace [a, b, c, d]
      = some { (Mesh.faceTangentStep m [a, b, c, d]).1 with
          normals := m.normals ++ [quadNormal m [a, b, c, d]]
          elements := m.elements ++ ([a, b, c, a, c, d].map (fun e =>
            ⟨{ e with norm := (m.normals.length + 1 : ℤ) },
              (Mesh.faceTangentStep m [a, b, c, d]).2⟩)) } := by
  obtain ⟨-, -, -, -, htgN, -, htgE, htgC, -⟩ := faceTangentStep_fields m [a, b, c, d]
  simp only [Mesh.addFace, List.length_cons, List.length_nil, Mesh.addElements,
    Mesh.ncacheAdd, Mesh.addNormal, htgC, hsm, hcn, quadNormal,
    List.getD_cons_zero, List.getD_cons_succ, List.map_cons, List.map_nil]
  norm_num
  rw [htgE, htgN]
  refine ⟨rfl, ?_⟩
  rw [List.take_left, List.drop_left' (by simp), List.drop_append 6]
  simp [El2.withNorm]

theorem addFace_quad_expl (m : Mesh) (a b c d : El)
    (hcn : ([a, b, c, d].any fun e => decide (e.norm = 0)) = false) :
    m.addFace [a, b, c, d]
      = some { (Mesh.faceTangentStep m [a, b, c, d]).1 with
          elements := m.elements ++ ([a, b, c, a, c, d].map (fun e =>
            ⟨e, (Mesh.faceTangentStep m [a, b, c, d]).2⟩)) } := by
  obtain ⟨-, -, -, -, -, -, htgE, -, -⟩ := faceTangentStep_fields m [a, b, c, d]
  simp only [Mesh.addFace, List.length_cons, List.length_nil, Mesh.addElements,
    hcn, List.map_cons, List.map_nil, List.getD_cons_zero, List.getD_cons_succ]
  norm_num
  rw [htgE]

theorem addFace_tri_smooth (m : Mesh) (a b c : El) (hsm : m.ncache.smooth = true)
    (hcn : ([a, b, c].any fun e => decide (e.norm = 0)) = true) :
    m.addFace [a, b, c]
      = some { (Mesh.faceTangentStep m [a, b, c]).1 with
          elements := m.elements ++ ([a, b, c].map (fun e =>
            ⟨e, (Mesh.faceTangentStep m [a, b, c]).2⟩))
          ncache := { m.ncache with
            vert2norm := [a, b, c].foldl
              (fun acc el => pushRM acc el.vert (triNormal m [a, b, c]))
              m.ncache.vert2norm
            elem2vert := m.ncache.elem2vert
              ++ [(m.elements.length, a.vert), (m.elements.length + 1, b.vert),
                  (m.elements.length + 2, c.vert)] } } := by
  obtain ⟨-, -, -, -, -, -, htgE, htgC, -⟩ := faceTangentStep_fields m [a, b, c]
  simp only [Mesh.addFace, List.length_cons, List.length_nil, Mesh.addElements,
    Mesh.ncacheAdd, htgC, hsm, hcn, triNormal, pushRM,
    List.getD_cons_zero, List.getD_cons_succ, List.map_cons, List.map_nil,
    List.enum, List.enumFrom, List.foldl_cons, List.foldl_nil]
  norm_num
  rw [htgE]

/-! ## The mesh-builder call sequences of C2 -/

/-- One call of the mesh-builder API named in C2 (plus the smoothing toggle,
which C4 needs). -/
inductive MeshOp where
  | addVertex (x y z : ℚ)
  | addNormal (x y z : ℚ)
  | addTexCoord (x y : ℚ)
  | addFace (els : List El)
  | setSmoothing (flag : Bool)
  | build (materialName : String)

/-- Run one builder call; `none` models the `AddFace` arity panic. -/
def execOp (m : Mesh) : MeshOp → Option Mesh
  | .addVertex x y z => some (m.addVertex x y z).1
  | .addNormal x y z => some (m.addNormal x y z).1
  | .addTexCoord x y => some (m.addTexCoord x y).1
  | .addFace els => m.addFace els
  | .setSmoothing flag => some (m.setNormalSmoothing flag)
  | .build name => some (m.build name)

/-- The attribute tuples referenced by the face elements a `Build` call
flushes: each accumulated element resolved (after pending-normal
resolution) into its flat record. -/
def flushRecords (m : Mesh) : List (List ℚ) :=
  (Mesh.ncacheBuild m).elements.map (Mesh.ncacheBuild m).getData

/-- The attribute tuples a call references: only `Build` flushes faces. -/
def opRefs (m : Mesh) : MeshOp → List (List ℚ)
  | .build _ => flushRecords m
  | _ => []

/-- Run a builder call sequence, collecting every referenced attribute
tuple at each flush. -/
def execLog : Mesh → List MeshOp → Option (Mesh × List (List ℚ))
  | m, [] => some (m, [])
  | m, op :: ops =>
    match execOp m op with
    | none => none
    | some m' => (execLog m' ops).map (fun r => (r.1, opRefs m op ++ r.2))

theorem Mesh.ncacheBuildStep_fields (m : Mesh) (p : ℕ × ℤ) :
    (Mesh.ncacheBuildStep m p).vdata = m.vdata
    ∧ (Mesh.ncacheBuildStep m p).vertices = m.vertices
    ∧ (Mesh.ncacheBuildStep m p).texcoords = m.texcoords
    ∧ (Mesh.ncacheBuildStep m p).groups = m.groups
    ∧ (Mesh.ncacheBuildStep m p).tangents = m.tangents
    ∧ (Mesh.ncacheBuildStep m p).ncache = m.ncache
    ∧ (Mesh.ncacheBuildStep m p).pointSize = m.pointSize
    ∧ m.normals <+: (Mesh.ncacheBuildStep m p).normals := by
  unfold Mesh.ncacheBuildStep Mesh.addNormal
  exact ⟨rfl, rfl, rfl, rfl, rfl, rfl, rfl, ⟨_, rfl⟩⟩

theorem Mesh.ncacheBuild_foldl_fields (L : List (ℕ × ℤ)) :
    ∀ m : Mesh, (L.foldl Mesh.ncacheBuildStep m).vdata = m.vdata
    ∧ (L.foldl Mesh.ncacheBuildStep m).vertices = m.vertices
    ∧ (L.foldl Mesh.ncacheBuildStep m).texcoords = m.texcoords
    ∧ (L.foldl Mesh.ncacheBuildStep m).groups = m.groups
    ∧ (L.foldl Mesh.ncacheBuildStep m).tangents = m.tangents
    ∧ (L.foldl Mesh.ncacheBuildStep m).ncache = m.ncache
    ∧ (L.foldl Mesh.ncacheBuildStep m).pointSize = m.pointSize
    ∧ m.normals <+: (L.foldl Mesh.ncacheBuildStep m).normals := by
  induction L with
  | nil =>
    exact fun m => ⟨rfl, rfl, rfl, rfl, rfl, rfl, rfl, List.prefix_refl _⟩
  | cons p t ih =>
    intro m
    obtain ⟨h1, h2, h3, h4, h5, h6, h7, h8⟩ := Mesh.ncacheBuildStep_fields m p
    obtain ⟨g1, g2, g3, g4, g5, g6, g7, g8⟩ := ih (Mesh.ncacheBuildStep m p)
    exact ⟨g1.trans h1, g2.trans h2, g3.trans h3, g4.trans h4, g5.trans h5,
      g6.trans h6, g7.trans h7, h8.trans g8⟩

theorem Mesh.ncacheBuild_fields (m : Mesh) :
    (Mesh.ncacheBuild m).vdata = m.vdata
    ∧ (Mesh.ncacheBuild m).vertices = m.vertices
    ∧ (Mesh.ncacheBuild m).texcoords = m.texcoords
    ∧ (Mesh.ncacheBuild m).groups = m.groups
    ∧ (Mesh.ncacheBuild m).tangents = m.tangents
    ∧ (Mesh.ncacheBuild m).ncache = m.ncache
    ∧ (Mesh.ncacheBuild m).pointSize = m.pointSize
    ∧ m.normals <+: (Mesh.ncacheBuild m).normals :=
  Mesh.ncacheBuild_foldl_fields m.ncache.elem2vert m

theorem ncacheAdd_vdata (m : Mesh) (n : Vec3) (b : ℕ) (els : List El) :
    (Mesh.ncacheAdd m n b els).vdata = m.vdata := by
  unfold Mesh.ncacheAdd Mesh.addNormal
  split <;> rfl

theorem addFace_vdata {m m' : Mesh} {els : List El}
    (h : m.addFace els = some m') : m'.vdata = m.vdata := by
  obtain ⟨-, htgD, -, -, -, -, -, -, -⟩ := faceTangentStep_fields m els
  unfold Mesh.addFace at h
  by_cases h3 : els.length = 3
  · simp only [h3, if_true, Option.some.injEq] at h
    subst h
    split
    · rw [ncacheAdd_vdata]
      exact htgD
    · exact htgD
  · by_cases h4 : els.length = 4
    · simp only [h3, h4, if_false, if_true, Option.some.injEq,
        eq_false (by norm_num : ¬(4:ℕ) = 3)] at h
      subst h
      split
      · rw [ncacheAdd_vdata]
        exact htgD
      · exact htgD
    · simp [h3, h4] at h

/-- The fold at the heart of `Build`: as long as every cached element's
record is already in the buffer, the records after the fold are exactly
the records before plus the records of the processed elements — as sets. -/
theorem buildFold_toFinset (g : El2 → List ℚ) (l : List El2) :
    ∀ acc : List (List ℚ) × List ℕ × List (El2 × ℕ),
    (∀ p ∈ acc.2.2, g p.1 ∈ acc.1) →
    (l.foldl (Mesh.buildStep g) acc).1.toFinset = acc.1.toFinset ∪ (l.map g).toFinset := by
  induction l with
  | nil => intro acc _; simp
  | cons el t ih =>
    intro acc hinv
    rw [List.foldl_cons]
    cases hl : alistLookup acc.2.2 el with
    | some idx =>
      have hstep : Mesh.buildStep g acc el = (acc.1, acc.2.1 ++ [idx], acc.2.2) := by
        unfold Mesh.buildStep
        rw [hl]
      rw [hstep]
      have hmem : g el ∈ acc.1 := hinv (el, idx) (alistLookup_mem hl)
      have := ih (acc.1, acc.2.1 ++ [idx], acc.2.2) hinv
      rw [this]
      simp only [List.map_cons, List.toFinset_cons]
      rw [Finset.union_insert, Finset.insert_eq_of_mem
        (Finset.mem_union_left _ (List.mem_toFinset.mpr hmem))]
    | none =>
      have hstep : Mesh.buildStep g acc el
          = (acc.1 ++ [g el], acc.2.1 ++ [acc.1.length],
              alistInsert acc.2.2 el acc.1.length) := by
        unfold Mesh.buildStep
        rw [hl]
      rw [hstep]
      have hinv' : ∀ p ∈ alistInsert acc.2.2 el acc.1.length,
          g p.1 ∈ acc.1 ++ [g el] := by
        intro p hp
        rcases alistInsert_mem hp with hp | hp
        · exact List.mem_append_left _ (hinv p hp)
        · subst hp
          exact List.mem_append_right _ (List.mem_singleton_self _)
      have := ih (acc.1 ++ [g el], acc.2.1 ++ [acc.1.length],
        alistInsert acc.2.2 el acc.1.length) hinv'
      rw [this]
      simp only [List.toFinset_append, List.map_cons, List.toFinset_cons,
        List.toFinset_nil]
      rw [Finset.union_insert]
      ext r
      simp [or_assoc]

/-- `Build` adds to the unique-record set of the vertex buffer exactly the
set of attribute tuples referenced by the flushed elements. -/
theorem build_vdata_toFinset (m : Mesh) (name : String) :
    (m.build name).vdata.toFinset = m.vdata.toFinset ∪ (flushRecords m).toFinset := by
  unfold Mesh.build flushRecords
  rw [buildFold_toFinset _ _ _ (by intro p hp; simp at hp)]
  rw [(Mesh.ncacheBuild_fields m).1]

/-- Any single builder call grows the unique-record set of the vertex
buffer by exactly the tuples it references (nothing for the non-flushing
calls, the flushed elements' records for `Build`). -/
theorem execOp_vdata_toFinset {m m' : Mesh} {op : MeshOp}
    (h : execOp m op = some m') :
    m'.vdata.toFinset = m.vdata.toFinset ∪ (opRefs m op).toFinset := by
  cases op with
  | addVertex x y z =>
    simp only [execOp, Option.some.injEq] at h
    subst h
    simp [Mesh.addVertex, opRefs]
  | addNormal x y z =>
    simp only [execOp, Option.some.injEq] at h
    subst h
    simp [Mesh.addNormal, opRefs]
  | addTexCoord x y =>
    simp only [execOp, Option.some.injEq] at h
    subst h
    simp [Mesh.addTexCoord, opRefs]
  | addFace els =>
    simp only [execOp] at h
    rw [addFace_vdata h]
    simp [opRefs]
  | setSmoothing flag =>
    simp only [execOp, Option.some.injEq] at h
    subst h
    simp only [Mesh.setNormalSmoothing]
    rw [show ({ Mesh.ncacheBuild m with ncache := newNormalCache flag } : Mesh).vdata
        = (Mesh.ncacheBuild m).vdata from rfl, (Mesh.ncacheBuild_fields m).1]
    simp [opRefs]
  | build name =>
    simp only [execOp, Option.some.injEq] at h
    subst h
    exact build_vdata_toFinset m name

/-- Over a whole call sequence, the unique records of the vertex buffer are
the initial ones plus exactly the referenced tuples collected at the
flushes. -/
theorem execLog_vdata_toFinset (ops : List MeshOp) :
    ∀ (m mf : Mesh) (refs : List (List ℚ)),
    execLog m ops = some (mf, refs) →
    mf.vdata.toFinset = m.vdata.toFinset ∪ refs.toFinset := by
  induction ops with
  | nil =>
    intro m mf refs h
    simp only [execLog, Option.some.injEq, Prod.mk.injEq] at h
    obtain ⟨h1, h2⟩ := h
    subst h1
    subst h2
    simp
  | cons op t ih =>
    intro m mf refs h
    simp only [execLog] at h
    cases hop : execOp m op with
    | none => rw [hop] at h; simp at h
    | some m' =>
      rw [hop] at h
      dsimp only at h
      cases hrec : execLog m' t with
      | none => rw [hrec] at h; simp at h
      | some r =>
        rw [hrec] at h
        simp only [Option.map_some', Option.some.injEq, Prod.mk.injEq] at h
        obtain ⟨h1, h2⟩ := h
        subst h1
        subst h2
        rw [ih m' r.1 r.2 hrec, execOp_vdata_toFinset hop,
          List.toFinset_append, Finset.union_assoc]

/-! ## Face order invariance (C2, second half)

In flat-normal mode every `AddFace` call's contribution to the record set
is a function of the base pools and the face alone — `faceRecords` below is
exactly "add this single face to the base pools" — so permuting the faces
permutes the flushed records and leaves the record set unchanged. -/

/-- Run a sequence of `AddFace` calls. -/
def execFaces : Mesh → List (List El) → Option Mesh
  | m, [] => some m
  | m, f :: t =>
    match m.addFace f with
    | none => none
    | some m' => execFaces m' t

/-- The base mesh with no pending elements and a fresh flat-mode cache. -/
def pristine (m0 : Mesh) : Mesh :=
  { m0 with elements := [], ncache := newNormalCache false }

/-- The records a single face contributes, computed by adding it alone to
the base pools. -/
def faceRecords (m0 : Mesh) (f : List El) : List (List ℚ) :=
  match (pristine m0).addFace f with
  | some mm => mm.elements.map mm.getData
  | none => []

/-- A well-formed face for the order-invariance statement: a triangle or a
quad whose explicit normal indices (if any) are nonnegative and point into
the base normal pool. -/
def FaceOk (m0 : Mesh) (f : List El) : Prop :=
  (f.length = 3 ∨ f.length = 4) ∧ ∀ e ∈ f, 0 ≤ e.norm ∧ e.norm ≤ m0.normals.length

/-- State invariant of a flat-mode `AddFace` run over the base mesh `m0`. -/
def FlatState (m0 m : Mesh) : Prop :=
  PoolExt m0 m ∧ m.ncache = m0.ncache ∧ m0.ncache.smooth = false
    ∧ m.vdata = m0.vdata ∧ (∀ e ∈ m.elements, ElOk m e)

/-- The resolved record of one freshly added face element, as a value of
the base pools and the face: position and texcoord from the pools, normal
either the face's computed flat normal or the element's own pool normal,
tangent the face's computed tangent (zero when absent). -/
def resolveNew (m0 : Mesh) (f : List El) (nv : Option Vec3) (e : El) : List ℚ :=
  let v := m0.vertexAt e.vert
  let vn := match nv with
    | some n => n
    | none => m0.normalAt e.norm
  let vt := m0.texcoordAt e.tex
  let tg := (getTangentOpt m0 f).getD Vec3.zero
  [v.x, v.y, v.z, vn.x, vn.y, vn.z, vt.x, vt.y, tg.x, tg.y, tg.z]

/-- What one flat-branch `AddFace` call does, for any mesh whose pools
agree with the base mesh: it returns `some`, extends only the normal and
tangent pools, appends elements whose resolved records are face-determined
values, and leaves cache, vdata, groups untouched. -/
theorem flatShape_step (m0 m : Mesh) (f outEls : List El) (nval : Vec3)
    (hv : m.vertices = m0.vertices) (htx : m.texcoords = m0.texcoords)
    (heq : m.addFace f = some { (Mesh.faceTangentStep m f).1 with
        normals := m.normals ++ [nval]
        elements := m.elements ++ (outEls.map (fun e =>
          ⟨{ e with norm := (m.normals.length + 1 : ℤ) },
            (Mesh.faceTangentStep m f).2⟩)) }) :
    ∃ m', m.addFace f = some m'
      ∧ m'.vertices = m.vertices ∧ m'.texcoords = m.texcoords
      ∧ m.normals <+: m'.normals ∧ m.tangents <+: m'.tangents
      ∧ m'.ncache = m.ncache ∧ m'.vdata = m.vdata ∧ m'.groups = m.groups
      ∧ m'.pointSize = m.pointSize
      ∧ (∃ L, m'.elements = m.elements ++ L
          ∧ (∀ e2 ∈ L, ElOk m' e2)
          ∧ L.map m'.getData = outEls.map (resolveNew m0 f (some nval))) := by
  rw [faceTangentStep_eq] at heq
  cases hgt : getTangentOpt m f with
  | some t0 =>
    rw [hgt] at heq
    dsimp only at heq
    refine ⟨_, heq, rfl, rfl, ⟨[nval], rfl⟩, ⟨[t0], rfl⟩, rfl, rfl, rfl, rfl,
      ⟨_, rfl, ?_, ?_⟩⟩
    · intro e2 he2
      simp only [List.mem_map] at he2
      obtain ⟨e, -, he⟩ := he2
      subst he
      refine ⟨by positivity, ?_, by positivity, ?_⟩
      · simp only [List.length_append, List.length_cons, List.length_nil]
        push_cast
        omega
      · simp only [List.length_append, List.length_cons, List.length_nil]
        push_cast
        omega
    · rw [List.map_map]
      refine List.map_congr_left fun e _ => ?_
      show (Mesh.getData _ _) = _
      unfold Mesh.getData resolveNew
      have h1 : ((m.normals.length : ℤ) + 1 - 1).toNat = m.normals.length := by
        omega
      have h2 : ((m.tangents.length : ℤ) + 1 - 1).toNat = m.tangents.length := by
        omega
      simp only [Mesh.normalAt, Mesh.vertexAt, Mesh.texcoordAt]
      rw [if_pos (by positivity : (0:ℤ) < (m.normals.length : ℤ) + 1),
        if_pos (by positivity : (0:ℤ) < (m.tangents.length : ℤ) + 1), h1, h2,
        getD_concat, getD_concat]
      rw [← getTangentOpt_congr hv htx, hgt, hv, htx]
      rfl
  | none =>
    rw [hgt] at heq
    dsimp only at heq
    refine ⟨_, heq, rfl, rfl, ⟨[nval], rfl⟩, List.prefix_refl _, rfl, rfl, rfl, rfl,
      ⟨_, rfl, ?_, ?_⟩⟩
    · intro e2 he2
      simp only [List.mem_map] at he2
      obtain ⟨e, -, he⟩ := he2
      subst he
      refine ⟨by positivity, ?_, le_refl 0, by positivity⟩
      simp only [List.length_append, List.length_cons, List.length_nil]
      push_cast
      omega
    · rw [List.map_map]
      refine List.map_congr_left fun e _ => ?_
      show (Mesh.getData _ _) = _
      unfold Mesh.getData resolveNew
      have h1 : ((m.normals.length : ℤ) + 1 - 1).toNat = m.normals.length := by
        omega
      simp only [Mesh.normalAt, Mesh.vertexAt, Mesh.texcoordAt]
      rw [if_pos (by positivity : (0:ℤ) < (m.normals.length : ℤ) + 1), h1,
        getD_concat]
      rw [← getTangentOpt_congr hv htx, hgt, hv, htx]
      rfl

/-- What one explicit-normal `AddFace` call does, for any mesh whose pools
agree with the base mesh: no normal is appended and each element keeps its
own pool normal. -/
theorem explShape_step (m0 m : Mesh) (f outEls : List El)
    (hv : m.vertices = m0.vertices) (htx : m.texcoords = m0.texcoords)
    (hpre : m0.normals <+: m.normals)
    (hnorms : ∀ e ∈ outEls, 0 ≤ e.norm ∧ e.norm ≤ m0.normals.length)
    (heq : m.addFace f = some { (Mesh.faceTangentStep m f).1 with
        elements := m.elements ++ (outEls.map (fun e =>
          ⟨e, (Mesh.faceTangentStep m f).2⟩)) }) :
    ∃ m', m.addFace f = some m'
      ∧ m'.vertices = m.vertices ∧ m'.texcoords = m.texcoords
      ∧ m.normals <+: m'.normals ∧ m.tangents <+: m'.tangents
      ∧ m'.ncache = m.ncache ∧ m'.vdata = m.vdata ∧ m'.groups = m.groups
      ∧ m'.pointSize = m.pointSize
      ∧ (∃ L, m'.elements = m.elements ++ L
          ∧ (∀ e2 ∈ L, ElOk m' e2)
          ∧ L.map m'.getData = outEls.map (resolveNew m0 f none)) := by
  have hlen : m0.normals.length ≤ m.normals.length := hpre.length_le
  rw [faceTangentStep_eq] at heq
  cases hgt : getTangentOpt m f with
  | some t0 =>
    rw [hgt] at heq
    dsimp only at heq
    refine ⟨_, heq, rfl, rfl, List.prefix_refl _, ⟨[t0], rfl⟩, rfl, rfl, rfl, rfl,
      ⟨_, rfl, ?_, ?_⟩⟩
    · intro e2 he2
      simp only [List.mem_map] at he2
      obtain ⟨e, he, heq2⟩ := he2
      subst heq2
      refine ⟨(hnorms e he).1, le_trans (hnorms e he).2 (by exact_mod_cast hlen), ?_, ?_⟩
      · positivity
      · simp only [List.length_append, List.length_cons, List.length_nil]
        push_cast
        omega
    · rw [List.map_map]
      refine List.map_congr_left fun e he => ?_
      have hn : Mesh.normalAt { (⟨m.inverted, m.vdata, m.groups, m.vertices,
          m.normals, m.texcoords, m.tangents ++ [t0], m.elements, m.ncache,
          m.pointSize⟩ : Mesh) with
          elements := m.elements ++ (outEls.map (fun e =>
            (⟨e, (m.tangents.length + 1 : ℤ)⟩ : El2))) } e.norm
          = Mesh.normalAt m0 e.norm :=
        normalAt_ext hpre (hnorms e he).1 (hnorms e he).2
      show (Mesh.getData _ _) = _
      unfold Mesh.getData resolveNew
      have h2 : ((m.tangents.length : ℤ) + 1 - 1).toNat = m.tangents.length := by
        omega
      rw [hn]
      simp only [Mesh.vertexAt, Mesh.texcoordAt]
      rw [if_pos (by positivity : (0:ℤ) < (m.tangents.length : ℤ) + 1), h2,
        getD_concat]
      rw [← getTangentOpt_congr hv htx, hgt, hv, htx]
      rfl
  | none =>
    rw [hgt] at heq
    dsimp only at heq
    refine ⟨_, heq, rfl, rfl, List.prefix_refl _, List.prefix_refl _, rfl, rfl,
      rfl, rfl, ⟨_, rfl, ?_, ?_⟩⟩
    · intro e2 he2
      simp only [List.mem_map] at he2
      obtain ⟨e, he, heq2⟩ := he2
      subst heq2
      exact ⟨(hnorms e he).1, le_trans (hnorms e he).2 (by exact_mod_cast hlen),
        le_refl 0, by positivity⟩
    · rw [List.map_map]
      refine List.map_congr_left fun e he => ?_
      have hn : Mesh.normalAt { m with
          elements := m.elements ++ (outEls.map (fun e =>
            (⟨e, (0 : ℤ)⟩ : El2))) } e.norm
          = Mesh.normalAt m0 e.norm :=
        normalAt_ext hpre (hnorms e he).1 (hnorms e he).2
      show (Mesh.getData _ _) = _
      unfold Mesh.getData resolveNew
      rw [hn]
      simp only [Mesh.vertexAt, Mesh.texcoordAt]
      rw [← getTangentOpt_congr hv htx, hgt, hv, htx]
      rfl

theorem length_eq_four {α : Type} {l : List α} (h : l.length = 4) :
    ∃ a b c d, l = [a, b, c, d] := by
  match l, h with
  | [a, b, c, d], _ => exact ⟨a, b, c, d, rfl⟩

/-- Adding one well-formed face in flat mode keeps the flat-run invariant
and appends exactly the face's own records. -/
theorem addFace_flat_step (m0 m : Mesh) (f : List El)
    (hs : FlatState m0 m) (hf : FaceOk m0 f) :
    ∃ m', m.addFace f = some m' ∧ FlatState m0 m'
      ∧ m'.elements.map m'.getData
          = m.elements.map m.getData ++ faceRecords m0 f := by
  obtain ⟨hpool, hcache, hsm0, hvdata, helems⟩ := hs
  have hsm : m.ncache.smooth = false := by rw [hcache]; exact hsm0
  have hv : m.vertices = m0.vertices := hpool.1
  have htx : m.texcoords = m0.texcoords := hpool.2.1
  have hpre : m0.normals <+: m.normals := hpool.2.2.1
  rcases hf.1 with h3 | h4
  · obtain ⟨a, b, c, rfl⟩ := List.length_eq_three.mp h3
    by_cases hcn : (([a, b, c] : List El).any fun e => decide (e.norm = 0)) = true
    · obtain ⟨m', hm', hv', htx', hnpre', htpre', hnc', hvd', hg', hps',
        L, hL, hLok, hLmap⟩ :=
        flatShape_step m0 m [a, b, c] [a, b, c] (triNormal m [a, b, c]) hv htx
          (addFace_tri_flat m a b c hsm hcn)
      obtain ⟨p', hp', -, -, -, -, -, -, -, -, Lp, hLp, -, hLpmap⟩ :=
        flatShape_step m0 (pristine m0) [a, b, c] [a, b, c]
          (triNormal (pristine m0) [a, b, c]) rfl rfl
          (addFace_tri_flat (pristine m0) a b c rfl hcn)
      have hfr : faceRecords m0 [a, b, c]
          = [a, b, c].map (resolveNew m0 [a, b, c]
              (some (triNormal (pristine m0) [a, b, c]))) := by
        unfold faceRecords
        rw [hp']
        dsimp only
        rw [hLp]
        show ((List.nil ++ Lp).map p'.getData) = _
        rw [List.nil_append, hLpmap]
      have hold : List.map m'.getData m.elements = List.map m.getData m.elements :=
        List.map_congr_left fun e2 he2 =>
          getData_ext ⟨hv', htx', hnpre', htpre'⟩ (helems e2 he2)
      have hmap : m'.elements.map m'.getData
          = m.elements.map m.getData ++ faceRecords m0 [a, b, c] := by
        rw [hL, List.map_append, hold, hLmap, hfr, triNormal_congr hv,
          @triNormal_congr m0 (pristine m0) rfl [a, b, c]]
      refine ⟨m', hm',
        ⟨poolExt_trans hpool ⟨hv', htx', hnpre', htpre'⟩,
          by rw [hnc']; exact hcache, hsm0, by rw [hvd']; exact hvdata, ?_⟩, hmap⟩
      intro e2 he2
      rw [hL] at he2
      rcases List.mem_append.mp he2 with h | h
      · exact elOk_mono ⟨hv', htx', hnpre', htpre'⟩ (helems e2 h)
      · exact hLok e2 h
    · have hcn' : (([a, b, c] : List El).any fun e => decide (e.norm = 0)) = false :=
        Bool.not_eq_true _ ▸ (by simpa using hcn)
      obtain ⟨m', hm', hv', htx', hnpre', htpre', hnc', hvd', hg', hps',
        L, hL, hLok, hLmap⟩ :=
        explShape_step m0 m [a, b, c] [a, b, c] hv htx hpre hf.2
          (addFace_tri_expl m a b c hcn')
      obtain ⟨p', hp', -, -, -, -, -, -, -, -, Lp, hLp, -, hLpmap⟩ :=
        explShape_step m0 (pristine m0) [a, b, c] [a, b, c] rfl rfl
          (List.prefix_refl _) hf.2
          (addFace_tri_expl (pristine m0) a b c hcn')
      have hfr : faceRecords m0 [a, b, c]
          = [a, b, c].map (resolveNew m0 [a, b, c] none) := by
        unfold faceRecords
        rw [hp']
        dsimp only
        rw [hLp]
        show ((List.nil ++ Lp).map p'.getData) = _
        rw [List.nil_append, hLpmap]
      have hold : List.map m'.getData m.elements = List.map m.getData m.elements :=
        List.map_congr_left fun e2 he2 =>
          getData_ext ⟨hv', htx', hnpre', htpre'⟩ (helems e2 he2)
      have hmap : m'.elements.map m'.getData
          = m.elements.map m.getData ++ faceRecords m0 [a, b, c] := by
        rw [hL, List.map_append, hold, hLmap, hfr]
      refine ⟨m', hm',
        ⟨poolExt_trans hpool ⟨hv', htx', hnpre', htpre'⟩,
          by rw [hnc']; exact hcache, hsm0, by rw [hvd']; exact hvdata, ?_⟩, hmap⟩
      intro e2 he2
      rw [hL] at he2
      rcases List.mem_append.mp he2 with h | h
      · exact elOk_mono ⟨hv', htx', hnpre', htpre'⟩ (helems e2 h)
      · exact hLok e2 h
  · obtain ⟨a, b, c, d, rfl⟩ := length_eq_four h4
    have houtOk : ∀ e ∈ ([a, b, c, a, c, d] : List El),
        0 ≤ e.norm ∧ e.norm ≤ m0.normals.length := by
      intro e he
      apply hf.2
      simp only [List.mem_cons, List.not_mem_nil, or_false] at he ⊢
      tauto
    by_cases hcn : (([a, b, c, d] : List El).any fun e => decide (e.norm = 0)) = true
    · obtain ⟨m', hm', hv', htx', hnpre', htpre', hnc', hvd', hg', hps',
        L, hL, hLok, hLmap⟩ :=
        flatShape_step m0 m [a, b, c, d] [a, b, c, a, c, d]
          (quadNormal m [a, b, c, d]) hv htx
          (addFace_quad_flat m a b c d hsm hcn)
      obtain ⟨p', hp', -, -, -, -, -, -, -, -, Lp, hLp, -, hLpmap⟩ :=
        flatShape_step m0 (pristine m0) [a, b, c, d] [a, b, c, a, c, d]
          (quadNormal (pristine m0) [a, b, c, d]) rfl rfl
          (addFace_quad_flat (pristine m0) a b c d rfl hcn)
      have hfr : faceRecords m0 [a, b, c, d]
          = [a, b, c, a, c, d].map (resolveNew m0 [a, b, c, d]
              (some (quadNormal (pristine m0) [a, b, c, d]))) := by
        unfold faceRecords
        rw [hp']
        dsimp only
        rw [hLp]
        show ((List.nil ++ Lp).map p'.getData) = _
        rw [List.nil_append, hLpmap]
      have hold : List.map m'.getData m.elements = List.map m.getData m.elements :=
        List.map_congr_left fun e2 he2 =>
          getData_ext ⟨hv', htx', hnpre', htpre'⟩ (helems e2 he2)
      have hmap : m'.elements.map m'.getData
          = m.elements.map m.getData ++ faceRecords m0 [a, b, c, d] := by
        rw [hL, List.map_append, hold, hLmap, hfr, quadNormal_congr hv,
          @quadNormal_congr m0 (pristine m0) rfl [a, b, c, d]]
      refine ⟨m', hm',
        ⟨poolExt_trans hpool ⟨hv', htx', hnpre', htpre'⟩,
          by rw [hnc']; exact hcache, hsm0, by rw [hvd']; exact hvdata, ?_⟩, hmap⟩
      intro e2 he2
      rw [hL] at he2
      rcases List.mem_append.mp he2 with h | h
      · exact elOk_mono ⟨hv', htx', hnpre', htpre'⟩ (helems e2 h)
      · exact hLok e2 h
    · have hcn' : (([a, b, c, d] : List El).any fun e => decide (e.norm = 0)) = false :=
        Bool.not_eq_true _ ▸ (by simpa using hcn)
      obtain ⟨m', hm', hv', htx', hnpre', htpre', hnc', hvd', hg', hps',
        L, hL, hLok, hLmap⟩ :=
        explShape_step m0 m [a, b, c, d] [a, b, c, a, c, d] hv htx hpre houtOk
          (addFace_quad_expl m a b c d hcn')
      obtain ⟨p', hp', -, -, -, -, -, -, -, -, Lp, hLp, -, hLpmap⟩ :=
        explShape_step m0 (pristine m0) [a, b, c, d] [a, b, c, a, c, d] rfl rfl
          (List.prefix_refl _) houtOk
          (addFace_quad_expl (pristine m0) a b c d hcn')
      have hfr : faceRecords m0 [a, b, c, d]
          = [a, b, c, a, c, d].map (resolveNew m0 [a, b, c, d] none) := by
        unfold faceRecords
        rw [hp']
        dsimp only
        rw [hLp]
        show ((List.nil ++ Lp).map p'.getData) = _
        rw [List.nil_append, hLpmap]
      have hold : List.map m'.getData m.elements = List.map m.getData m.elements :=
        List.map_congr_left fun e2 he2 =>
          getData_ext ⟨hv', htx', hnpre', htpre'⟩ (helems e2 he2)
      have hmap : m'.elements.map m'.getData
          = m.elements.map m.getData ++ faceRecords m0 [a, b, c, d] := by
        rw [hL, List.map_append, hold, hLmap, hfr]
      refine ⟨m', hm',
        ⟨poolExt_trans hpool ⟨hv', htx', hnpre', htpre'⟩,
          by rw [hnc']; exact hcache, hsm0, by rw [hvd']; exact hvdata, ?_⟩, hmap⟩
      intro e2 he2
      rw [hL] at he2
      rcases List.mem_append.mp he2 with h | h
      · exact elOk_mono ⟨hv', htx', hnpre', htpre'⟩ (helems e2 h)
      · exact hLok e2 h

/-- A flat-mode `AddFace` run succeeds and produces exactly the
concatenation of the per-face record lists, in face order. -/
theorem execFaces_flat_spec (m0 : Mesh) (faces : List (List El)) :
    ∀ m, FlatState m0 m → (∀ f ∈ faces, FaceOk m0 f) →
    ∃ mf, execFaces m faces = some mf ∧ FlatState m0 mf
      ∧ mf.elements.map mf.getData
          = m.elements.map m.getData ++ faces.flatMap (faceRecords m0) := by
  induction faces with
  | nil => exact fun m hs _ => ⟨m, rfl, hs, by simp [execFaces]⟩
  | cons f t ih =>
    intro m hs hfok
    obtain ⟨m', hm', hs', hmap⟩ :=
      addFace_flat_step m0 m f hs (hfok f (List.mem_cons_self _ _))
    obtain ⟨mf, hmf, hsf, hmapf⟩ :=
      ih m' hs' (fun g hg => hfok g (List.mem_cons_of_mem _ hg))
    refine ⟨mf, ?_, hsf, ?_⟩
    · simp only [execFaces]
      rw [hm']
      exact hmf
    · rw [hmapf, hmap, List.flatMap_cons, List.append_assoc]

/-- `ncacheBuild` does nothing when the cache has no registered elements. -/
theorem ncacheBuild_of_empty {m : Mesh} (h : m.ncache.elem2vert = []) :
    Mesh.ncacheBuild m = m := by
  unfold Mesh.ncacheBuild
  rw [h]
  rfl

/-- **C2.**  (a) For every sequence of `AddVertex`/`AddNormal`/
`AddTexCoord`/`AddFace` calls whose faces are flushed by one or more
`Build` calls, the set (and hence the number) of unique vertex records in
the output vertex buffer equals the set (number) of distinct
(vertex, normal, texcoord, tangent) attribute tuples referenced by the
flushed face elements.  (b) In flat-normal mode (the mode a fresh mesh
starts in), building the same faces in a different order yields the same
set of output vertex records: each face's records are a function of the
base pools and the face alone. -/
theorem dedup_invariant :
    (∀ (ops : List MeshOp) (mf : Mesh) (refs : List (List ℚ)),
        execLog Mesh.new ops = some (mf, refs) →
        mf.vdata.toFinset = refs.toFinset
          ∧ mf.vdata.toFinset.card = refs.toFinset.card)
    ∧ (∀ (m0 : Mesh) (faces1 faces2 : List (List El)) (name : String),
        m0.elements = [] → m0.ncache = newNormalCache false →
        (∀ f ∈ faces1, FaceOk m0 f) → faces1.Perm faces2 →
        ∀ mf1 mf2, execFaces m0 faces1 = some mf1 →
          execFaces m0 faces2 = some mf2 →
        (mf1.build name).vdata.toFinset = (mf2.build name).vdata.toFinset) := by
  constructor
  · intro ops mf refs h
    have := execLog_vdata_toFinset ops Mesh.new mf refs h
    rw [this]
    constructor
    · simp [Mesh.new]
    · simp [Mesh.new]
  · intro m0 faces1 faces2 name helems hnc hfok1 hperm mf1 mf2 h1 h2
    have hstate : FlatState m0 m0 :=
      ⟨poolExt_refl m0, rfl, by rw [hnc]; rfl, rfl,
        by rw [helems]; intro e he; cases he⟩
    have hfok2 : ∀ f ∈ faces2, FaceOk m0 f := fun f hf =>
      hfok1 f (hperm.mem_iff.mpr hf)
    obtain ⟨mf1', hmf1', hs1, hmap1⟩ := execFaces_flat_spec m0 faces1 m0 hstate hfok1
    obtain ⟨mf2', hmf2', hs2, hmap2⟩ := execFaces_flat_spec m0 faces2 m0 hstate hfok2
    rw [h1, Option.some.injEq] at hmf1'
    rw [h2, Option.some.injEq] at hmf2'
    subst hmf1'
    subst hmf2'
    have hflush : ∀ mf : Mesh, FlatState m0 mf →
        flushRecords mf = mf.elements.map mf.getData := by
      intro mf hsf
      have hev : mf.ncache.elem2vert = [] := by
        rw [hsf.2.1, hnc]
        rfl
      unfold flushRecords
      rw [ncacheBuild_of_empty hev]
    rw [build_vdata_toFinset, build_vdata_toFinset, hflush mf1 hs1, hflush mf2 hs2,
      hmap1, hmap2, hs1.2.2.2.1, hs2.2.2.2.1, helems]
    simp only [List.map_nil, List.nil_append]
    have hpermMap : (faces1.flatMap (faceRecords m0)).Perm
        (faces2.flatMap (faceRecords m0)) := by
      simp only [List.flatMap_def]
      exact (hperm.map (faceRecords m0)).flatten
    rw [List.toFinset_eq_of_perm _ _ hpermMap]

/-- C2's concrete call sequence: a unit right triangle with an explicit
normal, flushed by one `Build`. -/
def demoOps : List MeshOp :=
  [.addVertex 0 0 0, .addVertex 1 0 0, .addVertex 0 1 0, .addNormal 0 0 1,
   .addFace [⟨1, 0, 1⟩, ⟨2, 0, 1⟩, ⟨3, 0, 1⟩], .build ""]

def demoMesh : Mesh :=
  ⟨0, [[0, 0, 0, 0, 0, 1, 0, 0, 0, 0, 0], [1, 0, 0, 0, 0, 1, 0, 0, 0, 0, 0],
      [0, 1, 0, 0, 0, 1, 0, 0, 0, 0, 0]],
    [⟨"diffuse", [0, 1, 2]⟩], [⟨0, 0, 0⟩, ⟨1, 0, 0⟩, ⟨0, 1, 0⟩], [⟨0, 0, 1⟩],
    [], [], [], ⟨[], [], true⟩, 0⟩

def demoRefs : List (List ℚ) :=
  [[0, 0, 0, 0, 0, 1, 0, 0, 0, 0, 0], [1, 0, 0, 0, 0, 1, 0, 0, 0, 0, 0],
   [0, 1, 0, 0, 0, 1, 0, 0, 0, 0, 0]]

/-- C2's concrete base mesh for the order-invariance half: the unit square
corners and one explicit normal, flat mode, nothing pending. -/
def demoBase : Mesh :=
  ⟨0, [], [], [⟨0, 0, 0⟩, ⟨1, 0, 0⟩, ⟨1, 1, 0⟩, ⟨0, 1, 0⟩], [⟨0, 0, 1⟩],
    [], [], [], ⟨[], [], false⟩, 0⟩

def demoT1 : List El := [⟨1, 0, 1⟩, ⟨2, 0, 1⟩, ⟨3, 0, 1⟩]

def demoT2 : List El := [⟨1, 0, 1⟩, ⟨3, 0, 1⟩, ⟨4, 0, 1⟩]

def demoM1 : Mesh :=
  { demoBase with elements := demoT1.map (⟨·, 0⟩) ++ demoT2.map (⟨·, 0⟩) }

def demoM2 : Mesh :=
  { demoBase with elements := demoT2.map (⟨·, 0⟩) ++ demoT1.map (⟨·, 0⟩) }

/-- Witness for C2 at concrete inputs: the demo run flushes three records
which are exactly the unique records of the built buffer, and building the
two triangles of a square in either order yields the same record set. -/
theorem dedup_invariant_witness :
    execLog Mesh.new demoOps = some (demoMesh, demoRefs)
    ∧ demoMesh.vdata.toFinset = demoRefs.toFinset
    ∧ demoMesh.vdata.toFinset.card = demoRefs.toFinset.card
    ∧ execFaces demoBase [demoT1, demoT2] = some demoM1
    ∧ execFaces demoBase [demoT2, demoT1] = some demoM2
    ∧ (demoM1.build "x").vdata.toFinset = (demoM2.build "x").vdata.toFinset := by
  have hlog : execLog Mesh.new demoOps = some (demoMesh, demoRefs) := by rfl
  have h1 : execFaces demoBase [demoT1, demoT2] = some demoM1 := by rfl
  have h2 : execFaces demoBase [demoT2, demoT1] = some demoM2 := by rfl
  obtain ⟨hset, hcard⟩ := dedup_invariant.1 demoOps demoMesh demoRefs hlog
  refine ⟨hlog, hset, hcard, h1, h2, ?_⟩
  refine dedup_invariant.2 demoBase [demoT1, demoT2] [demoT2, demoT1] "x" rfl rfl
    ?_ (List.Perm.swap demoT2 demoT1 []) demoM1 demoM2 h1 h2
  intro f hf
  rcases List.mem_cons.mp hf with h | h
  · subst h
    exact ⟨Or.inl rfl, by decide⟩
  · rcases List.mem_cons.mp h with h | h
    · subst h
      exact ⟨Or.inl rfl, by decide⟩
    · cases h

/-! ## Smoothed normals (C4) -/

/-- Pushing a value equal to the stored previous mean leaves the mean
unchanged — the incremental-mean update is stationary at its input. -/
theorem push_mean_fixed (rm : RunningMean) (u : Vec3) (h : rm.oldM = u) :
    (rm.push u).mean = u ∧ (rm.push u).oldM = u := by
  unfold RunningMean.push
  rw [h]
  have : u.add ((u.sub u).mul (1 / (rm.count + 1))) = u := by
    cases u
    simp [Vec3.add, Vec3.sub, Vec3.mul]
  exact ⟨this, this⟩

/-- The first push into a fresh running mean gives exactly the pushed
value: `0 + (u - 0) * (1/1) = u`. -/
theorem init_push_mean (u : Vec3) :
    (RunningMean.init.push u).mean = u ∧ (RunningMean.init.push u).oldM = u := by
  unfold RunningMean.push RunningMean.init
  have : Vec3.zero.add ((u.sub Vec3.zero).mul (1 / (0 + 1))) = u := by
    cases u
    simp [Vec3.add, Vec3.sub, Vec3.mul, Vec3.zero]
  exact ⟨this, this⟩

/-- Pushing `u` preserves "every stored mean is `u`". -/
theorem pushRM_meanU {l : List (ℤ × RunningMean)} {u : Vec3} (k : ℤ)
    (h : ∀ p ∈ l, p.2.mean = u ∧ p.2.oldM = u) :
    ∀ p ∈ pushRM l k u, p.2.mean = u ∧ p.2.oldM = u := by
  intro p hp
  unfold pushRM at hp
  cases hl : alistLookup l k with
  | none =>
    rw [hl] at hp
    rcases alistInsert_mem hp with hmem | hmem
    · exact h p hmem
    · subst hmem
      exact init_push_mean u
  | some rm =>
    rw [hl] at hp
    rcases alistInsert_mem hp with hmem | hmem
    · exact h p hmem
    · subst hmem
      exact push_mean_fixed rm u (h (k, rm) (alistLookup_mem hl)).2

theorem pushRM_present_self (l : List (ℤ × RunningMean)) (k : ℤ) (u : Vec3) :
    ∃ rm, alistLookup (pushRM l k u) k = some rm := by
  unfold pushRM
  cases alistLookup l k with
  | none => exact ⟨_, alistLookup_insert_self _ _ _⟩
  | some rm => exact ⟨_, alistLookup_insert_self _ _ _⟩

theorem pushRM_present_mono {l : List (ℤ × RunningMean)} {k' : ℤ} (k : ℤ)
    (u : Vec3) (h : ∃ rm, alistLookup l k' = some rm) :
    ∃ rm, alistLookup (pushRM l k u) k' = some rm := by
  by_cases hk : k = k'
  · subst hk
    exact pushRM_present_self l k u
  · unfold pushRM
    cases alistLookup l k with
    | none => rw [alistLookup_insert_ne _ _ hk]; exact h
    | some rm => rw [alistLookup_insert_ne _ _ hk]; exact h

/-- Invariant of a smooth-mode `AddFace` run over base mesh `m0`: pools
fixed (no normal is ever appended before the flush), cache in smooth mode
with every accumulated mean equal to `u`, every registered vertex present,
the registered element indices exactly `0..len-1` in order, and all
pending elements still carrying normal index 0. -/
def SmoothState (m0 m : Mesh) (u : Vec3) : Prop :=
  m.vertices = m0.vertices ∧ m.texcoords = m0.texcoords ∧ m.normals = m0.normals
    ∧ m.ncache.smooth = true
    ∧ (∀ p ∈ m.ncache.vert2norm, p.2.mean = u ∧ p.2.oldM = u)
    ∧ (∀ q ∈ m.ncache.elem2vert,
        ∃ rm, alistLookup m.ncache.vert2norm q.2 = some rm)
    ∧ m.ncache.elem2vert.map Prod.fst = List.range m.elements.length
    ∧ (∀ e ∈ m.elements, e.el.norm = 0)

/-- One smooth-mode triangle with the common unit normal `u` keeps the
smooth-run invariant. -/
theorem addFace_smooth_step (m0 m : Mesh) (f : List El) (u : Vec3)
    (hs : SmoothState m0 m u) (h3 : f.length = 3) (hn : ∀ e ∈ f, e.norm = 0)
    (hu : triNormal m0 f = u) :
    ∃ m', m.addFace f = some m' ∧ SmoothState m0 m' u := by
  obtain ⟨hv, htx, hnorm, hsm, hmean, hpres, hcover, hzero⟩ := hs
  obtain ⟨a, b, c, rfl⟩ := List.length_eq_three.mp h3
  have hcn : (([a, b, c] : List El).any fun e => decide (e.norm = 0)) = true := by
    simp [hn a (by simp)]
  have heq := addFace_tri_smooth m a b c hsm hcn
  have hnval : triNormal m [a, b, c] = u := by
    rw [triNormal_congr hv]
    exact hu
  obtain ⟨-, -, -, htgV, htgN, htgT, htgE, -, -⟩ :=
    faceTangentStep_fields m [a, b, c]
  refine ⟨_, heq, htgV.trans hv, htgT.trans htx, htgN.trans hnorm, hsm, ?_, ?_, ?_, ?_⟩
  · simp only [List.foldl_cons, List.foldl_nil, hnval]
    exact pushRM_meanU c.vert (pushRM_meanU b.vert (pushRM_meanU a.vert hmean))
  · intro q hq
    simp only [List.foldl_cons, List.foldl_nil, hnval]
    rcases List.mem_append.mp hq with hq | hq
    · exact pushRM_present_mono _ _ (pushRM_present_mono _ _
        (pushRM_present_mono _ _ (hpres q hq)))
    · simp only [List.mem_cons, List.not_mem_nil, or_false] at hq
      rcases hq with hq | hq | hq <;> subst hq
      · exact pushRM_present_mono _ _ (pushRM_present_mono _ _
          (pushRM_present_self _ _ _))
      · exact pushRM_present_mono _ _ (pushRM_present_self _ _ _)
      · exact pushRM_present_self _ _ _
  · show (m.ncache.elem2vert ++ _).map Prod.fst
      = List.range (m.elements ++ _).length
    rw [List.map_append, hcover, List.length_append]
    show List.range m.elements.length ++ [m.elements.length, m.elements.length + 1,
        m.elements.length + 2] = List.range (m.elements.length + 3)
    rw [show m.elements.length + 3 = (m.elements.length + 2) + 1 from rfl,
      List.range_succ,
      show m.elements.length + 2 = (m.elements.length + 1) + 1 from rfl,
      List.range_succ, List.range_succ]
    simp
  · intro e he
    rcases List.mem_append.mp he with he | he
    · exact hzero e he
    · simp only [List.mem_map, List.mem_cons, List.not_mem_nil, or_false] at he
      obtain ⟨e1, he1, heq1⟩ := he
      subst heq1
      rcases he1 with h | h | h <;> (subst h; exact hn _ (by simp))

/-- A whole smooth-mode run keeps the smooth-run invariant. -/
theorem execFaces_smooth_spec (m0 : Mesh) (faces : List (List El)) (u : Vec3) :
    ∀ m, SmoothState m0 m u →
    (∀ f ∈ faces, f.length = 3 ∧ ∀ e ∈ f, e.norm = 0) →
    (∀ f ∈ faces, triNormal m0 f = u) →
    ∃ mf, execFaces m faces = some mf ∧ SmoothState m0 mf u := by
  induction faces with
  | nil => exact fun m hs _ _ => ⟨m, rfl, hs⟩
  | cons f t ih =>
    intro m hs hfok hfu
    obtain ⟨m', hm', hs'⟩ := addFace_smooth_step m0 m f u hs
      (hfok f (List.mem_cons_self _ _)).1 (hfok f (List.mem_cons_self _ _)).2
      (hfu f (List.mem_cons_self _ _))
    obtain ⟨mf, hmf, hsf⟩ := ih m' hs'
      (fun g hg => hfok g (List.mem_cons_of_mem _ hg))
      (fun g hg => hfu g (List.mem_cons_of_mem _ hg))
    refine ⟨mf, ?_, hsf⟩
    simp only [execFaces]
    rw [hm']
    exact hmf

/-- Default element for indexed access. -/
def d0 : El2 := ⟨⟨0, 0, 0⟩, 0⟩

/-- `normalCache.build`'s in-place update of a single element, by index. -/
theorem surgery_getD (l : List El2) (p : ℕ) (idx : ℤ) :
    (l.take p ++ ((l.drop p).take 1).map (fun e => e.withNorm idx)
        ++ l.drop (p + 1)).length = l.length
    ∧ ∀ i : ℕ,
      (l.take p ++ ((l.drop p).take 1).map (fun e => e.withNorm idx)
          ++ l.drop (p + 1)).getD i d0
        = if i = p ∧ p < l.length then (l.getD i d0).withNorm idx
          else l.getD i d0 := by
  induction l generalizing p with
  | nil =>
    constructor
    · simp
    · intro i
      simp
  | cons x t ih =>
    cases p with
    | zero =>
      constructor
      · simp
      · intro i
        cases i with
        | zero => simp
        | succ j => simp
    | succ p' =>
      obtain ⟨ihlen, ihget⟩ := ih p'
      constructor
      · simpa using ihlen
      · intro i
        cases i with
        | zero =>
          simp
        | succ j =>
          have := ihget j
          simp only [List.take_succ_cons, List.drop_succ_cons, List.cons_append,
            List.getD_cons_succ, List.length_cons]
          rw [this]
          by_cases hj : j = p' ∧ p' < t.length
          · rw [if_pos hj, if_pos (by omega)]
          · rw [if_neg hj, if_neg (by omega)]

/-- The element at index `i` resolves to the accumulated normal `u` after
this step, and every previously resolved element stays resolved to `u`. -/
theorem ncacheBuild_fold_u (u : Vec3) (L : List (ℕ × ℤ)) :
    ∀ m : Mesh,
    (∀ q ∈ L, ∃ rm, alistLookup m.ncache.vert2norm q.2 = some rm ∧ rm.mean = u) →
    (∀ i : ℕ, i < m.elements.length →
      (m.elements.getD i d0).el.norm = 0
        ∨ (0 < (m.elements.getD i d0).el.norm
            ∧ (m.elements.getD i d0).el.norm ≤ m.normals.length
            ∧ m.normalAt (m.elements.getD i d0).el.norm = u)) →
    (L.foldl Mesh.ncacheBuildStep m).elements.length = m.elements.length
    ∧ (∀ i : ℕ, i < m.elements.length →
        ((L.foldl Mesh.ncacheBuildStep m).elements.getD i d0).el.norm = 0
          ∨ (0 < ((L.foldl Mesh.ncacheBuildStep m).elements.getD i d0).el.norm
              ∧ ((L.foldl Mesh.ncacheBuildStep m).elements.getD i d0).el.norm
                  ≤ (L.foldl Mesh.ncacheBuildStep m).normals.length
              ∧ (L.foldl Mesh.ncacheBuildStep m).normalAt
                  ((L.foldl Mesh.ncacheBuildStep m).elements.getD i d0).el.norm = u))
    ∧ (∀ i : ℕ, i < m.elements.length → i ∈ L.map Prod.fst →
        ((L.foldl Mesh.ncacheBuildStep m).elements.getD i d0).el.norm ≠ 0)
    ∧ (∀ i : ℕ, i < m.elements.length → (m.elements.getD i d0).el.norm ≠ 0 →
        ((L.foldl Mesh.ncacheBuildStep m).elements.getD i d0).el.norm ≠ 0) := by
  induction L with
  | nil =>
    intro m _ hq
    refine ⟨rfl, hq, ?_, ?_⟩
    · intro i _ hi
      simp at hi
    · intro i _ h
      exact h
  | cons q t ih =>
    intro m hL hQ
    obtain ⟨rm, hrm, hmean⟩ := hL q (List.mem_cons_self _ _)
    have hstep : Mesh.ncacheBuildStep m q
        = { m with
            normals := m.normals ++ [u]
            elements := m.elements.take q.1
              ++ ((m.elements.drop q.1).take 1).map
                  (fun e => e.withNorm ((m.normals.length : ℤ) + 1))
              ++ m.elements.drop (q.1 + 1) } := by
      unfold Mesh.ncacheBuildStep Mesh.addNormal
      rw [hrm]
      dsimp only
      rw [hmean]
      cases u
      simp [Mesh.mk.injEq, List.length_append]
    set m1 := Mesh.ncacheBuildStep m q with hm1
    obtain ⟨hsl, hsg⟩ := surgery_getD m.elements q.1 ((m.normals.length + 1 : ℤ))
    have hm1n : m1.normals = m.normals ++ [u] := by
      rw [hstep]
    have hm1e : ∀ i : ℕ, m1.elements.getD i d0
        = if i = q.1 ∧ q.1 < m.elements.length
          then (m.elements.getD i d0).withNorm ((m.normals.length + 1 : ℤ))
          else m.elements.getD i d0 := by
      intro i
      rw [hstep]
      exact hsg i
    have hm1len : m1.elements.length = m.elements.length := by
      rw [hstep]
      exact hsl
    have hm1c : m1.ncache = m.ncache := (Mesh.ncacheBuildStep_fields m q).2.2.2.2.2.1
    have hL' : ∀ q' ∈ t, ∃ rm', alistLookup m1.ncache.vert2norm q'.2 = some rm'
        ∧ rm'.mean = u := by
      intro q' hq'
      rw [hm1c]
      exact hL q' (List.mem_cons_of_mem _ hq')
    have hQ' : ∀ i : ℕ, i < m1.elements.length →
        (m1.elements.getD i d0).el.norm = 0
          ∨ (0 < (m1.elements.getD i d0).el.norm
              ∧ (m1.elements.getD i d0).el.norm ≤ m1.normals.length
              ∧ m1.normalAt (m1.elements.getD i d0).el.norm = u) := by
      intro i hi
      rw [hm1len] at hi
      rw [hm1e i]
      by_cases hip : i = q.1 ∧ q.1 < m.elements.length
      · rw [if_pos hip]
        simp only [El2.withNorm]
        right
        refine ⟨by positivity, ?_, ?_⟩
        · rw [hm1n]
          simp only [El2.withNorm, List.length_append, List.length_cons,
            List.length_nil]
          push_cast
          omega
        · show m1.normalAt ((m.normals.length + 1 : ℤ)) = u
          unfold Mesh.normalAt
          rw [hm1n, if_pos (by positivity : (0:ℤ) < (m.normals.length : ℤ) + 1),
            show (((m.normals.length : ℤ) + 1 - 1).toNat) = m.normals.length by omega,
            getD_concat]
      · rw [if_neg hip]
        rcases hQ i hi with h | ⟨h1, h2, h3⟩
        · exact Or.inl h
        · right
          refine ⟨h1, ?_, ?_⟩
          · rw [hm1n]
            simp only [List.length_append, List.length_cons, List.length_nil]
            push_cast
            omega
          · show m1.normalAt _ = u
            rw [normalAt_ext (by rw [hm1n]; exact ⟨[u], rfl⟩) h1.le h2]
            exact h3
    obtain ⟨glen, gQ, gcov, gpers⟩ := ih m1 hL' hQ'
    rw [hm1len] at glen gQ gcov gpers
    refine ⟨glen, gQ, ?_, ?_⟩
    · intro i hi hmem
      simp only [List.map_cons, List.mem_cons] at hmem
      rcases hmem with hmem | hmem
      · subst hmem
        refine gpers _ hi ?_
        rw [hm1e]
        rw [if_pos ⟨rfl, hi⟩]
        simp only [El2.withNorm]
        omega
      · exact gcov i hi hmem
    · intro i hi hne
      refine gpers i hi ?_
      rw [hm1e]
      by_cases hip : i = q.1 ∧ q.1 < m.elements.length
      · rw [if_pos hip]
        simp only [El2.withNorm]
        omega
      · rw [if_neg hip]
        exact hne

/-- After `SetNormalSmoothing` flushes a smooth run all of whose pushed
face normals were `u`, every element carries a positive normal index that
resolves to `u`. -/
theorem smooth_flush (m0 mf : Mesh) (u : Vec3) (flag : Bool)
    (hs : SmoothState m0 mf u) :
    ∀ e ∈ (mf.setNormalSmoothing flag).elements,
      0 < e.el.norm ∧ (mf.setNormalSmoothing flag).normalAt e.el.norm = u := by
  obtain ⟨-, -, -, -, hmean, hpres, hcover, hzero⟩ := hs
  have hL : ∀ q ∈ mf.ncache.elem2vert,
      ∃ rm, alistLookup mf.ncache.vert2norm q.2 = some rm ∧ rm.mean = u := by
    intro q hq
    obtain ⟨rm, hrm⟩ := hpres q hq
    exact ⟨rm, hrm, (hmean _ (alistLookup_mem hrm)).1⟩
  have hQ : ∀ i : ℕ, i < mf.elements.length →
      (mf.elements.getD i d0).el.norm = 0
        ∨ (0 < (mf.elements.getD i d0).el.norm
            ∧ (mf.elements.getD i d0).el.norm ≤ mf.normals.length
            ∧ mf.normalAt (mf.elements.getD i d0).el.norm = u) := by
    intro i hi
    left
    rw [List.getD_eq_getElem mf.elements d0 hi]
    exact hzero _ (List.getElem_mem hi)
  obtain ⟨glen, gQ, gcov, -⟩ := ncacheBuild_fold_u u mf.ncache.elem2vert mf hL hQ
  intro e he
  have heB : e ∈ (Mesh.ncacheBuild mf).elements := he
  obtain ⟨i, hi, hie⟩ := List.mem_iff_getElem.mp heB
  have hgetD : (Mesh.ncacheBuild mf).elements.getD i d0 = e := by
    rw [List.getD_eq_getElem _ d0 hi]
    exact hie
  have hi' : i < mf.elements.length := by
    unfold Mesh.ncacheBuild at hi
    rw [glen] at hi
    exact hi
  have hnz : ((Mesh.ncacheBuild mf).elements.getD i d0).el.norm ≠ 0 := by
    refine gcov i hi' ?_
    rw [hcover, List.mem_range]
    exact hi'
  unfold Mesh.ncacheBuild at hgetD hnz
  rcases gQ i hi' with h0 | ⟨h1, -, h3⟩
  · exact absurd h0 hnz
  · rw [hgetD] at h1 h3
    refine ⟨h1, ?_⟩
    show (List.foldl Mesh.ncacheBuildStep mf mf.ncache.elem2vert).normalAt
      e.el.norm = u
    exact h3

/-- Folding vector addition over a list of copies of `u` adds `u` scaled
by the length. -/
theorem foldl_add_eq (u : Vec3) (l : List Vec3) (h : ∀ v ∈ l, v = u) :
    ∀ acc : Vec3, l.foldl Vec3.add acc = acc.add (u.mul (l.length : ℚ)) := by
  induction l with
  | nil =>
    intro acc
    cases acc
    simp [Vec3.add, Vec3.mul]
  | cons v t ih =>
    intro acc
    have hv : v = u := h v (List.mem_cons_self _ _)
    subst hv
    rw [List.foldl_cons, ih (fun w hw => h w (List.mem_cons_of_mem _ hw))]
    cases acc
    cases v
    simp only [Vec3.add, Vec3.mul, Vec3.mk.injEq, List.length_cons]
    push_cast
    refine ⟨by ring, by ring, by ring⟩

/-- The arithmetic mean of a nonempty list of copies of `u` is `u`. -/
theorem mean_of_equal (u : Vec3) (l : List Vec3) (h : ∀ v ∈ l, v = u)
    (hne : l ≠ []) :
    (l.foldl Vec3.add Vec3.zero).mul (1 / (l.length : ℚ)) = u := by
  rw [foldl_add_eq u l h Vec3.zero]
  have hlen : ((l.length : ℚ)) ≠ 0 := by
    have : 0 < l.length := List.length_pos.mpr hne
    positivity
  cases u
  simp only [Vec3.zero, Vec3.add, Vec3.mul, Vec3.mk.injEq]
  refine ⟨?_, ?_, ?_⟩ <;> (field_simp)

/-- Normalizing an exactly-unit vector is the identity. -/
theorem normalize_of_unit (u : Vec3) (hun : u.normSq = 1) :
    u.normalize = u := by
  unfold Vec3.normalize
  rw [hun, fsqrt_one]
  cases u
  simp [Vec3.mul]

/-- In flat mode a triangle with a zero normal index contributes records
carrying that triangle's own flat face normal. -/
theorem faceRecords_tri_flat (m0 : Mesh) (a b c : El)
    (hcn : (([a, b, c] : List El).any fun e => decide (e.norm = 0)) = true) :
    faceRecords m0 [a, b, c]
      = [a, b, c].map (resolveNew m0 [a, b, c]
          (some (triNormal m0 [a, b, c]))) := by
  obtain ⟨p', hp', -, -, -, -, -, -, -, -, Lp, hLp, -, hLpmap⟩ :=
    flatShape_step m0 (pristine m0) [a, b, c] [a, b, c]
      (triNormal (pristine m0) [a, b, c]) rfl rfl
      (addFace_tri_flat (pristine m0) a b c rfl hcn)
  unfold faceRecords
  rw [hp']
  dsimp only
  rw [hLp]
  show ((List.nil ++ Lp).map p'.getData) = _
  rw [List.nil_append, hLpmap, @triNormal_congr m0 (pristine m0) rfl [a, b, c]]

/-- **C4.**  With normal smoothing on, a planar fan of triangles — every
face normal equal to the unit vector `u`, no explicit normal indices —
run through `AddFace` and flushed by `SetNormalSmoothing` resolves every
element's normal to `u`, and `u` is exactly the normalized arithmetic mean
of the face normals; with smoothing off, the same faces produce one
record per element in which each triangle's elements carry that
triangle's own independently computed flat face normal. -/
theorem smoothing_correctness (m0 : Mesh) (faces : List (List El)) (u : Vec3)
    (hfaces : ∀ f ∈ faces, f.length = 3 ∧ ∀ e ∈ f, e.norm = 0)
    (hu : ∀ f ∈ faces, triNormal m0 f = u)
    (hun : u.normSq = 1) (hne : faces ≠ [])
    (hm0c : m0.ncache = newNormalCache false) :
    (((faces.map (triNormal m0)).foldl Vec3.add Vec3.zero).mul
        (1 / ((faces.map (triNormal m0)).length : ℚ))).normalize = u
    ∧ (∃ mf, execFaces { m0 with elements := [], ncache := newNormalCache true }
          faces = some mf
        ∧ ∀ e ∈ (mf.setNormalSmoothing false).elements,
            0 < e.el.norm ∧ (mf.setNormalSmoothing false).normalAt e.el.norm = u)
    ∧ (∃ mf, execFaces (pristine m0) faces = some mf
        ∧ mf.elements.map mf.getData
            = faces.flatMap (fun f => f.map
                (resolveNew m0 f (some (triNormal m0 f))))) := by
  refine ⟨?_, ?_, ?_⟩
  · rw [mean_of_equal u (faces.map (triNormal m0)) ?_ ?_]
    · exact normalize_of_unit u hun
    · intro v hv
      obtain ⟨f, hf, rfl⟩ := List.mem_map.mp hv
      exact hu f hf
    · intro hc
      exact hne (List.map_eq_nil_iff.mp hc)
  · have hstart : SmoothState m0
        { m0 with elements := [], ncache := newNormalCache true } u := by
      refine ⟨rfl, rfl, rfl, rfl, ?_, ?_, ?_, ?_⟩
      · intro p hp
        simp [newNormalCache] at hp
      · intro q hq
        simp [newNormalCache] at hq
      · rfl
      · intro e he
        simp at he
    obtain ⟨mf, hmf, hsf⟩ :=
      execFaces_smooth_spec m0 faces u _ hstart hfaces hu
    exact ⟨mf, hmf, smooth_flush m0 mf u false hsf⟩
  · have hflat : FlatState m0 (pristine m0) := by
      refine ⟨⟨rfl, rfl, List.prefix_refl _, List.prefix_refl _⟩,
        hm0c.symm, ?_, rfl, ?_⟩
      · rw [hm0c]
        rfl
      · intro e he
        simp [pristine] at he
    have hfok : ∀ f ∈ faces, FaceOk m0 f := by
      intro f hf
      refine ⟨Or.inl (hfaces f hf).1, fun e he => ?_⟩
      rw [(hfaces f hf).2 e he]
      exact ⟨le_refl 0, by positivity⟩
    obtain ⟨mf, hmf, -, hmap⟩ := execFaces_flat_spec m0 faces (pristine m0) hflat hfok
    refine ⟨mf, hmf, ?_⟩
    rw [hmap]
    have hfr : ∀ f ∈ faces,
        faceRecords m0 f = f.map (resolveNew m0 f (some (triNormal m0 f))) := by
      intro f hf
      obtain ⟨a, b, c, rfl⟩ := List.length_eq_three.mp (hfaces f hf).1
      refine faceRecords_tri_flat m0 a b c ?_
      simp [(hfaces _ hf).2 a (by simp)]
    rw [List.flatMap_def, List.flatMap_def, List.map_congr_left hfr]
    show List.map _ List.nil ++ _ = _
    rw [List.map_nil, List.nil_append]

/-- Concrete planar fan: four vertices in the z = 0 plane. -/
def fanBase : Mesh :=
  { Mesh.new with vertices := [⟨0, 0, 0⟩, ⟨1, 0, 0⟩, ⟨0, 1, 0⟩, ⟨-1, 0, 0⟩] }

/-- Two triangles of the fan sharing vertex 1, no explicit normals. -/
def fanFaces : List (List El) :=
  [[⟨1, 0, 0⟩, ⟨2, 0, 0⟩, ⟨3, 0, 0⟩], [⟨1, 0, 0⟩, ⟨3, 0, 0⟩, ⟨4, 0, 0⟩]]

section LoaderDefs

/-! ## `loader.go` — parsing of OBJ / MTL text (C6, C8, C9)

The scanner's `line` variable — whose value at panic time ends up in the
returned error message — is threaded explicitly.  `fmt` output is ignored;
`mtllib`, `map_Kd` and `map_Ks` touch the filesystem / OpenGL and are
treated as directives that do not change the modelled state (inputs in the
theorems below avoid them); numeric parsing models `strconv`'s decimal
forms `[+-]?digits`, `[+-]?digits.digits*` and `[+-]?.digits` (the
exponent forms are unused by the repository's assets, and the malformed
inputs used in the theorems are malformed under both grammars). -/

/-- The characters trimmed by `strings.TrimSpace` / split on by the
`[ \t\r]+` regexp (an OBJ line never contains a newline). -/
def isSpaceChar (c : Char) : Bool :=
  c == ' ' || c == '\t' || c == '\n' || c == '\r'

/-- `strings.TrimSpace`. -/
def trimSpace (s : String) : String :=
  ⟨((s.toList.dropWhile isSpaceChar).reverse.dropWhile isSpaceChar).reverse⟩

/-- `spaces.Split(line, -1)` on a trimmed line: split on runs of
whitespace. -/
def splitWSAux : List Char → List Char → List String
  | [], acc => if acc.isEmpty then [] else [⟨acc.reverse⟩]
  | c :: rest, acc =>
    if isSpaceChar c then
      if acc.isEmpty then splitWSAux rest []
      else ⟨acc.reverse⟩ :: splitWSAux rest []
    else splitWSAux rest (c :: acc)

def splitWS (s : String) : List String := splitWSAux s.toList []

/-- `strings.Split(str, sep)` for a one-character separator: keeps empty
parts. -/
def splitOn1 (sep : Char) : List Char → List Char → List String
  | [], acc => [⟨acc.reverse⟩]
  | c :: rest, acc =>
    if c = sep then ⟨acc.reverse⟩ :: splitOn1 sep rest []
    else splitOn1 sep rest (c :: acc)

def digitVal (c : Char) : Option ℕ :=
  if '0' ≤ c ∧ c ≤ '9' then some (c.toNat - '0'.toNat) else none

def parseNatAux : List Char → ℕ → Option ℕ
  | [], acc => some acc
  | c :: rest, acc =>
    match digitVal c with
    | some d => parseNatAux rest (acc * 10 + d)
    | none => none

def parseNat (cs : List Char) : Option ℕ :=
  if cs.isEmpty then none else parseNatAux cs 0

/-- `parseint` — `strconv.ParseInt(fld, 10, 32)`, `none` instead of the
source's panic (the repository's indices are far below the 32-bit range,
which is not modelled). -/
def parseint (s : String) : Option ℤ :=
  match s.toList with
  | '+' :: rest => (parseNat rest).map (fun n => (n : ℤ))
  | '-' :: rest => (parseNat rest).map (fun n => -(n : ℤ))
  | cs => (parseNat cs).map (fun n => (n : ℤ))

/-- `parsef32` — `float32(strconv.ParseFloat(fld, 32))`, exact over ℚ,
`none` instead of the source's panic. -/
def parsef32 (s : String) : Option ℚ :=
  let core : List Char → Option ℚ := fun cs =>
    match splitOn1 '.' cs [] with
    | [ds] => (parseNat ds.toList).map (fun n => (n : ℚ))
    | [is, fs] =>
      if is.isEmpty ∧ fs.isEmpty then none
      else
        match (if is.isEmpty then some 0 else parseNat is.toList),
          (if fs.isEmpty then some 0 else parseNat fs.toList) with
        | some ip, some fp =>
          some ((ip : ℚ) + (fp : ℚ) / (10 : ℚ) ^ fs.length)
        | _, _ => none
    | _ => none
  match s.toList with
  | '+' :: rest => core rest
  | '-' :: rest => (core rest).map (fun q => -q)
  | cs => core cs

/-- `parse3fv` — parses up to three float fields into a vector, missing
components zero; `none` on a parse failure or on more than three fields
(the source indexes out of the `Vec3` and panics there). -/
def parse3fv (flds : List String) : Option Vec3 :=
  if flds.length > 3 then none
  else match flds.mapM parsef32 with
    | some vals => some ⟨vals.getD 0 0, vals.getD 1 0, vals.getD 2 0⟩
    | none => none

/-- One `v/vt/vn` face-field of `parseFaces`: split on `/`, parse each
part (an empty part panics in the source: `none`), missing parts zero,
more than three parts panics (`none`). -/
def parseFaceEl (str : String) : Option El :=
  let parts := splitOn1 '/' str.toList []
  if parts.length > 3 then none
  else match parts.mapM parseint with
    | some vals => some ⟨vals.getD 0 0, vals.getD 1 0, vals.getD 2 0⟩
    | none => none

def parseFaces (flds : List String) : Option (List El) :=
  flds.mapM parseFaceEl

/-- `objData`: the mesh being built plus the per-material pending face
lists (`groups`, a map modelled in insertion order — the theorems below
only ever populate a single key, so Go's randomised map iteration order
is not observable), the current group name and the current material
name. -/
structure ObjData where
  mesh : Mesh
  groups : List (String × List (List El))
  grpName : String
  mtlName : String

/-- `o.groups[o.mtlName] = append(o.groups[o.mtlName], elem)`. -/
def groupsAdd (gs : List (String × List (List El))) (k : String)
    (face : List El) : List (String × List (List El)) :=
  alistInsert gs k ((alistLookup gs k).getD [] ++ [face])

/-- The loop body of `objData.build`: flush each material's pending faces
through `AddFace` (whose panic on a bad arity aborts the load) and
`Build`. -/
def flushGroups : Mesh → List (String × List (List El)) → Option Mesh
  | m, [] => some m
  | m, (mat, faces) :: rest =>
    match execFaces m faces with
    | none => none
    | some m' => flushGroups (m'.build mat) rest

/-- `objData.build`. -/
def ObjData.build (o : ObjData) (name : String) : Option ObjData :=
  match flushGroups o.mesh o.groups with
  | none => none
  | some m => some { o with mesh := m, groups := [], grpName := name }

/-- The error of `LoadObj` / `LoadMtl`: the source formats the panic text
together with the line being scanned when the panic fired; only that line
is modelled. -/
structure LoadError where
  line : String
deriving DecidableEq, Repr

/-- One trimmed, non-skipped line of `LoadObj`'s scanner loop. -/
def loadObjStep (o : ObjData) (l : String) : Except LoadError ObjData :=
  if l.length = 0 then .ok o
  else if l.toList.headD ' ' = '#' then .ok o
  else
    let flds := splitWS l
    let s := flds.headD ""
    if s = "v" then
      match parse3fv flds.tail with
      | some u => .ok { o with mesh := (o.mesh.addVertex u.x u.y u.z).1 }
      | none => .error ⟨l⟩
    else if s = "vt" then
      match parse3fv flds.tail with
      | some u => .ok { o with mesh := (o.mesh.addTexCoord u.x u.y).1 }
      | none => .error ⟨l⟩
    else if s = "vn" then
      match parse3fv flds.tail with
      | some u => .ok { o with mesh := (o.mesh.addNormal u.x u.y u.z).1 }
      | none => .error ⟨l⟩
    else if s = "f" then
      match parseFaces flds.tail with
      | some elem => .ok { o with groups := groupsAdd o.groups o.mtlName elem }
      | none => .error ⟨l⟩
    else if s = "g" then
      if flds.length > 1 then
        match o.build (flds.getD 1 "") with
        | some o' => .ok o'
        | none => .error ⟨l⟩
      else .ok o
    else if s = "s" then
      if flds.length < 2 then .error ⟨l⟩
      else .ok { o with
        mesh := o.mesh.setNormalSmoothing (flds.getD 1 "" != "off") }
    else if s = "mtllib" then .ok o
    else if s = "usemtl" then
      if flds.length < 2 then .error ⟨l⟩
      else .ok { o with mtlName := flds.getD 1 "" }
    else .ok o

/-- `LoadObj`'s scanner loop; `line` is the last scanned (trimmed) line,
reported when the final flush panics. -/
def loadObjGo : ObjData → String → List String → Except LoadError Mesh
  | o, line, [] =>
    match o.build "__END" with
    | some o' => .ok o'.mesh
    | none => .error ⟨line⟩
  | o, _, t :: rest =>
    let l := trimSpace t
    match loadObjStep o l with
    | .error e => .error e
    | .ok o' => loadObjGo o' l rest

/-- `LoadObj`, over the list of input lines. -/
def loadObj (lines : List String) : Except LoadError Mesh :=
  loadObjGo ⟨Mesh.new, [], "", ""⟩ "" lines

/-- `mtlData` (the texture paths `diffMap`/`specMap` are filesystem
artefacts and not modelled; the theorems below use materials without
texture maps, for which `toMaterial`'s texture list is empty). -/
structure MtlData where
  name : String
  ambient : Vec3
  diffuse : Vec3
  specular : Vec3
  shininess : ℚ
  alpha : ℚ
  model : ℤ
deriving DecidableEq, Repr

/-- `newMtlData` — the source's defaults. -/
def newMtlData (name : String) : MtlData :=
  ⟨name, ⟨1, 1, 1⟩, ⟨1, 1, 1⟩, ⟨1/2, 1/2, 1/2⟩, 128, 1, 2⟩

/-- The runtime value content of a `Material` as far as `toMaterial`
determines it: which constructor was selected, and the color / ambient
scale stored by `SetColor` / `SetAmbient`. -/
inductive MatKind where
  | diffuse
  | reflective (specular : Vec3) (shininess : ℚ)
deriving DecidableEq, Repr

structure Material where
  kind : MatKind
  color : Vec4
  ambient : ℚ
deriving DecidableEq, Repr

/-- `mtlData.toMaterial` (textureless path): model 0 and 1 select
`Diffuse`, every other model falls into the `default` branch selecting
`Reflective(specular.Vec4(alpha), shininess)`; the ambient scale is
`|Ka.Vec4(1)| / |Kd.Vec4(1)|`, forced to 0 for model 0. -/
def toMaterial (m : MtlData) : Material :=
  let color := m.diffuse.vec4 m.alpha
  let ambScale := fsqrt (m.ambient.vec4 1).normSq / fsqrt (m.diffuse.vec4 1).normSq
  if m.model = 0 then
    { kind := .diffuse, color := color, ambient := 0 }
  else if m.model = 1 then
    { kind := .diffuse, color := color, ambient := ambScale }
  else
    { kind := .reflective ((m.specular.vec4 m.alpha).vec3) m.shininess
      color := color
      ambient := ambScale }

/-- State of `LoadMtl`'s loop: names returned so far, the material being
accumulated, and the saved materials (`mtlDataCache`, keyed lowercase). -/
structure MtlState where
  names : List String
  cur : Option MtlData
  saved : List (String × MtlData)

/-- `saveMaterialData`. -/
def saveMtl (st : MtlState) (m : MtlData) : MtlState :=
  { st with saved := alistInsert st.saved m.name.toLower m }

/-- One trimmed, non-skipped line of `LoadMtl`'s scanner loop. -/
def loadMtlStep (st : MtlState) (l : String) : Except LoadError MtlState :=
  if l.length = 0 then .ok st
  else if l.toList.headD ' ' = '#' then .ok st
  else
    let flds := splitWS l
    let with3 : (MtlData → Vec3 → MtlData) → Except LoadError MtlState :=
      fun upd =>
        if flds.length < 4 then .error ⟨l⟩
        else match st.cur, parse3fv ((flds.drop 1).take 3) with
          | some m, some v => .ok { st with cur := some (upd m v) }
          | _, _ => .error ⟨l⟩
    let with1 : (MtlData → ℚ → MtlData) → Except LoadError MtlState :=
      fun upd =>
        if flds.length < 2 then .error ⟨l⟩
        else match st.cur, parsef32 (flds.getD 1 "") with
          | some m, some q => .ok { st with cur := some (upd m q) }
          | _, _ => .error ⟨l⟩
    let s := flds.headD ""
    if s = "newmtl" then
      if flds.length < 2 then .error ⟨l⟩
      else
        let st' := match st.cur with
          | some m => { saveMtl st m with names := st.names ++ [m.name] }
          | none => st
        .ok { st' with cur := some (newMtlData (flds.getD 1 "")) }
    else if s = "Ka" then with3 (fun m v => { m with ambient := v })
    else if s = "Kd" then with3 (fun m v => { m with diffuse := v })
    else if s = "Ke" then .ok st
    else if s = "Ks" then with3 (fun m v => { m with specular := v })
    else if s = "Ni" then .ok st
    else if s = "Ns" then with1 (fun m q => { m with shininess := q * 2 })
    else if s = "Tr" then with1 (fun m q => { m with alpha := 1 - q })
    else if s = "Tf" then .ok st
    else if s = "d" then with1 (fun m q => { m with alpha := q })
    else if s = "illum" then
      if flds.length < 2 then .error ⟨l⟩
      else match st.cur, parseint (flds.getD 1 "") with
        | some m, some n => .ok { st with cur := some { m with model := n } }
        | _, _ => .error ⟨l⟩
    else if s = "map_Ka" then .ok st
    else if s = "map_Kd" then .ok st
    else if s = "map_Ks" then .ok st
    else if s = "bump" then .ok st
    else if s = "map_bump" then .ok st
    else .ok st

def loadMtlGo : MtlState → List String → Except LoadError MtlState
  | st, [] =>
    match st.cur with
    | some m => .ok { saveMtl st m with names := st.names ++ [m.name] }
    | none => .ok st
  | st, t :: rest =>
    let l := trimSpace t
    match loadMtlStep st l with
    | .error e => .error e
    | .ok st' => loadMtlGo st' rest

/-- `LoadMtl`, over the list of input lines: returns the material names
and the saved material data. -/
def loadMtl (lines : List String) : Except LoadError MtlState :=
  loadMtlGo ⟨[], none, []⟩ lines

/-- Observer: run `LoadObj`'s scanner over a prefix of the input,
returning the state and the last scanned (trimmed) line when no line
errors. -/
def scanObj : ObjData → String → List String → Option (ObjData × String)
  | o, line, [] => some (o, line)
  | o, _, t :: rest =>
    match loadObjStep o (trimSpace t) with
    | .error _ => none
    | .ok o' => scanObj o' (trimSpace t) rest

/-- Observer: run `LoadMtl`'s scanner over a prefix of the input. -/
def scanMtl : MtlState → List String → Option MtlState
  | st, [] => some st
  | st, t :: rest =>
    match loadMtlStep st (trimSpace t) with
    | .error _ => none
    | .ok st' => scanMtl st' rest

/-- A trimmed OBJ line carrying a malformed numeric field: a `v`/`vt`/`vn`
record whose component list fails to parse, or an `f` record one of whose
index fields fails to parse. -/
def ObjNumericBad (l : String) : Prop :=
  (∃ args, (splitWS l = "v" :: args ∨ splitWS l = "vt" :: args
      ∨ splitWS l = "vn" :: args) ∧ parse3fv args = none)
  ∨ (∃ args, splitWS l = "f" :: args ∧ parseFaces args = none)

/-- A trimmed MTL line carrying a malformed numeric field: a `Ka`/`Kd`/`Ks`
color whose components fail to parse, an `Ns`/`Tr`/`d` scalar that fails
to parse, or an `illum` model that fails to parse. -/
def MtlNumericBad (l : String) : Prop :=
  (∃ args, (splitWS l = "Ka" :: args ∨ splitWS l = "Kd" :: args
      ∨ splitWS l = "Ks" :: args)
    ∧ 3 ≤ args.length ∧ parse3fv (args.take 3) = none)
  ∨ (∃ args, (splitWS l = "Ns" :: args ∨ splitWS l = "Tr" :: args
      ∨ splitWS l = "d" :: args)
    ∧ 1 ≤ args.length ∧ parsef32 (args.getD 0 "") = none)
  ∨ (∃ args, splitWS l = "illum" :: args
    ∧ 1 ≤ args.length ∧ parseint (args.getD 0 "") = none)

/-- The scanner state holds a pending face with an unsupported number of
vertices (`AddFace` panics on anything other than 3 or 4). -/
def BadArity (o : ObjData) : Prop :=
  ∃ p ∈ o.groups, ∃ f ∈ p.2, ¬(f.length = 3 ∨ f.length = 4)

end LoaderDefs

/-- The minimal OBJ text of the round-trip scenario. -/
def c6Lines : List String :=
  ["g main", "v 0 0 0", "v 1 0 0", "v 1 1 0", "v 0 1 0",
   "vt 0 0", "vt 1 0", "vt 1 1", "vt 0 1", "f 1/1 2/2 3/3 4/4"]

/-- The mesh state after scanning the nine vertex-data lines. -/
def c6Mesh10 : Mesh :=
  { Mesh.new with
    vertices := [⟨0, 0, 0⟩, ⟨1, 0, 0⟩, ⟨1, 1, 0⟩, ⟨0, 1, 0⟩]
    texcoords := [⟨0, 0⟩, ⟨1, 0⟩, ⟨1, 1⟩, ⟨0, 1⟩] }

/-- The parsed quad face `f 1/1 2/2 3/3 4/4`. -/
def c6Face : List El := [⟨1, 1, 0⟩, ⟨2, 2, 0⟩, ⟨3, 3, 0⟩, ⟨4, 4, 0⟩]

/-- The mesh after `AddFace` on the quad: one shared Newell normal, six
elements pointing at it, no tangent (the square is degenerate in texture
space along the first edge). -/
def c6M1 : Mesh :=
  { c6Mesh10 with
    normals := [quadNormal c6Mesh10 c6Face]
    elements := [⟨⟨1, 1, 1⟩, 0⟩, ⟨⟨2, 2, 1⟩, 0⟩, ⟨⟨3, 3, 1⟩, 0⟩,
      ⟨⟨1, 1, 1⟩, 0⟩, ⟨⟨3, 3, 1⟩, 0⟩, ⟨⟨4, 4, 1⟩, 0⟩] }

theorem c6_tangent_none : getTangentOpt c6Mesh10
    [⟨1, 1, 0⟩, ⟨2, 2, 0⟩, ⟨3, 3, 0⟩, ⟨4, 4, 0⟩] = none := by
  have h0 : getTangentOpt c6Mesh10 [⟨1, 1, 0⟩, ⟨2, 2, 0⟩, ⟨3, 3, 0⟩, ⟨4, 4, 0⟩]
      = getTangent [⟨0, 0, 0⟩, ⟨1, 0, 0⟩, ⟨1, 1, 0⟩, ⟨0, 1, 0⟩]
          [⟨0, 0⟩, ⟨1, 0⟩, ⟨1, 1⟩, ⟨0, 1⟩] := rfl
  rw [h0]
  simp only [getTangent, List.getD_cons_zero, List.getD_cons_succ]
  norm_num [epsilon]

theorem c6_addFace : c6Mesh10.addFace c6Face = some c6M1 := by
  have hq := addFace_quad_flat c6Mesh10 ⟨1, 1, 0⟩ ⟨2, 2, 0⟩ ⟨3, 3, 0⟩ ⟨4, 4, 0⟩
    rfl (by decide)
  rw [faceTangentStep_eq, c6_tangent_none] at hq
  dsimp only at hq
  show c6Mesh10.addFace [⟨1, 1, 0⟩, ⟨2, 2, 0⟩, ⟨3, 3, 0⟩, ⟨4, 4, 0⟩]
    = some c6M1
  rw [hq]
  norm_num [c6M1, c6Mesh10, c6Face, Mesh.new, List.map_cons, List.map_nil,
    Mesh.mk.injEq]

/-- **C6.**  Loading the minimal OBJ text (`g main`, four `v` records of a
unit square, four `vt` records, `f 1/1 2/2 3/3 4/4`, EOF) succeeds and
yields exactly one render group, carrying the default "diffuse" material
(no `usemtl` was seen), whose index list has exactly 6 entries — the two
triangles of the quad — referencing 4 unique vertex records. -/
theorem obj_roundtrip :
    ∃ m, loadObj c6Lines = .ok m
      ∧ m.groups = [⟨"diffuse", [0, 1, 2, 0, 2, 3]⟩]
      ∧ (m.groups.getD 0 ⟨"", []⟩).edata.length = 6
      ∧ m.vdata.length = 4 := by
  refine ⟨c6M1.build "", ?_, ?_, ?_, ?_⟩
  · have hscan : loadObj c6Lines
        = loadObjGo ⟨c6Mesh10, [("", [c6Face])], "main", ""⟩
            "f 1/1 2/2 3/3 4/4" [] := rfl
    rw [hscan]
    simp only [loadObjGo, ObjData.build, flushGroups, execFaces]
    rw [c6_addFace]
  · rfl
  · rfl
  · rfl

/-- The first field emitted by the splitter extends the accumulator. -/
theorem splitWSAux_head (cs : List Char) : ∀ acc : List Char, acc ≠ [] →
    ∃ tail, (splitWSAux cs acc).headD "" = ⟨acc.reverse ++ tail⟩ := by
  induction cs with
  | nil =>
    intro acc hacc
    obtain ⟨a, as, rfl⟩ := List.exists_cons_of_ne_nil hacc
    exact ⟨[], by simp [splitWSAux]⟩
  | cons c rest ih =>
    intro acc hacc
    obtain ⟨a, as, rfl⟩ := List.exists_cons_of_ne_nil hacc
    by_cases hc : isSpaceChar c = true
    · refine ⟨[], ?_⟩
      simp [splitWSAux, hc]
    · obtain ⟨t, ht⟩ := ih (c :: a :: as) (by simp)
      refine ⟨c :: t, ?_⟩
      have hstep : splitWSAux (c :: rest) (a :: as) = splitWSAux rest (c :: a :: as) := by
        simp [splitWSAux, hc]
      rw [hstep, ht]
      simp

/-- A line whose first whitespace-separated field is `s` is nonempty, and
starts with `s`'s own first character — in particular it is not skipped as
a comment unless `s` itself starts with `#`. -/
theorem splitWS_guards {l s : String} {tl : List String}
    (h : splitWS l = s :: tl) :
    ¬l.length = 0 ∧ (l.toList.headD ' ' = '#' → s.toList.headD ' ' = '#') := by
  constructor
  · intro h0
    have htl : l.toList = [] := by
      have : l.toList.length = 0 := h0
      exact List.length_eq_zero.mp this
    rw [splitWS, htl] at h
    simp [splitWSAux] at h
  · intro hc
    cases htl : l.toList with
    | nil =>
      rw [htl] at hc
      exact absurd hc (by decide)
    | cons c cs =>
      rw [htl] at hc
      simp only [List.headD_cons] at hc
      subst hc
      have hstep : splitWS l = splitWSAux cs ['#'] := by
        rw [splitWS, htl]
        simp [splitWSAux, isSpaceChar]
      obtain ⟨t, ht⟩ := splitWSAux_head cs ['#'] (by simp)
      rw [hstep] at h
      rw [h] at ht
      simp only [List.headD_cons] at ht
      rw [ht]
      rfl

/-- `AddFace` panics (returns `none`) exactly on unsupported arities. -/
theorem addFace_none_of_arity (m : Mesh) (f : List El)
    (h : ¬(f.length = 3 ∨ f.length = 4)) : m.addFace f = none := by
  push_neg at h
  unfold Mesh.addFace
  rw [if_neg h.1, if_neg h.2]

/-- A supported-arity face never stops the flush. -/
theorem addFace_isSome_of_arity (m : Mesh) (f : List El)
    (h : f.length = 3 ∨ f.length = 4) : ∃ m', m.addFace f = some m' := by
  unfold Mesh.addFace
  rcases h with h3 | h4
  · rw [if_pos h3]
    exact ⟨_, rfl⟩
  · rw [if_neg (by omega), if_pos h4]
    exact ⟨_, rfl⟩

/-- A face list containing an unsupported-arity face always aborts. -/
theorem execFaces_none_of_bad (faces : List (List El))
    (h : ∃ f ∈ faces, ¬(f.length = 3 ∨ f.length = 4)) :
    ∀ m, execFaces m faces = none := by
  induction faces with
  | nil => obtain ⟨f, hf, -⟩ := h; cases hf
  | cons f t ih =>
    intro m
    obtain ⟨f', hf', hbad⟩ := h
    rcases List.mem_cons.mp hf' with rfl | hmem
    · unfold execFaces
      rw [addFace_none_of_arity m f' hbad]
    · by_cases hgood : f.length = 3 ∨ f.length = 4
      · obtain ⟨m', hm'⟩ := addFace_isSome_of_arity m f hgood
        unfold execFaces
        rw [hm']
        exact ih ⟨f', hmem, hbad⟩ m'
      · unfold execFaces
        rw [addFace_none_of_arity m f hgood]

/-- Flushing groups that hold an unsupported-arity face aborts. -/
theorem flushGroups_none_of_bad (gs : List (String × List (List El)))
    (h : ∃ p ∈ gs, ∃ f ∈ p.2, ¬(f.length = 3 ∨ f.length = 4)) :
    ∀ m, flushGroups m gs = none := by
  induction gs with
  | nil => obtain ⟨p, hp, -⟩ := h; cases hp
  | cons q t ih =>
    intro m
    obtain ⟨p, hp, f, hf, hbad⟩ := h
    rcases List.mem_cons.mp hp with rfl | hmem
    · unfold flushGroups
      rw [execFaces_none_of_bad p.2 ⟨f, hf, hbad⟩ m]
    · cases hq : execFaces m q.2 with
      | none =>
        unfold flushGroups
        rw [hq]
      | some m' =>
        unfold flushGroups
        rw [hq]
        exact ih ⟨p, hmem, f, hf, hbad⟩ (m'.build q.1)

/-- With an unsupported-arity face pending, `objData.build` panics
whatever group name is being opened. -/
theorem build_none_of_badArity (o : ObjData) (h : BadArity o) (name : String) :
    ObjData.build o name = none := by
  unfold ObjData.build
  rw [flushGroups_none_of_bad o.groups h o.mesh]

/-- A scanned line with a malformed numeric field makes `LoadObj`'s
dispatch panic with that line, whatever the current state. -/
theorem loadObjStep_numeric_error (o : ObjData) (l : String)
    (h : ObjNumericBad l) : loadObjStep o l = .error ⟨l⟩ := by
  rcases h with ⟨args, htyp, hbad⟩ | ⟨args, hsp, hbad⟩
  · rcases htyp with hsp | hsp | hsp <;>
    · obtain ⟨hlen, hhash⟩ := splitWS_guards hsp
      have hch : ¬l.toList.headD ' ' = '#' := fun hc => absurd (hhash hc) (by decide)
      unfold loadObjStep
      rw [if_neg hlen, if_neg hch, hsp]
      simp [hbad]
  · obtain ⟨hlen, hhash⟩ := splitWS_guards hsp
    have hch : ¬l.toList.headD ' ' = '#' := fun hc => absurd (hhash hc) (by decide)
    unfold loadObjStep
    rw [if_neg hlen, if_neg hch, hsp]
    simp [hbad]

/-- With an unsupported-arity face pending, a `g name` directive makes
the dispatch flush and panic with the `g` line itself. -/
theorem loadObjStep_g_error (o : ObjData) (l : String) (args : List String)
    (hsp : splitWS l = "g" :: args) (hne : args ≠ [])
    (hb : BadArity o) : loadObjStep o l = .error ⟨l⟩ := by
  obtain ⟨hlen, hhash⟩ := splitWS_guards hsp
  have hch : ¬l.toList.headD ' ' = '#' := fun hc => absurd (hhash hc) (by decide)
  unfold loadObjStep
  rw [if_neg hlen, if_neg hch, hsp]
  have hgt : ("g" :: args : List String).length > 1 := by
    have := List.length_pos.mpr hne
    simp only [List.length_cons]
    omega
  simp [hgt, hne, build_none_of_badArity o hb]

/-- A scanned MTL line with a malformed numeric field makes `LoadMtl`'s
dispatch panic with that line, whatever the current state. -/
theorem loadMtlStep_numeric_error (st : MtlState) (l : String)
    (h : MtlNumericBad l) : loadMtlStep st l = .error ⟨l⟩ := by
  rcases h with ⟨args, htyp, hlen3, hbad⟩ | ⟨args, htyp, hlen1, hbad⟩
    | ⟨args, hsp, hlen1, hbad⟩
  · have hc4 : ∀ s : String, ¬((s :: args : List String).length < 4) := by
      intro s
      simp only [List.length_cons]
      omega
    rcases htyp with hsp | hsp | hsp <;>
    · obtain ⟨hlen, hhash⟩ := splitWS_guards hsp
      have hch : ¬l.toList.headD ' ' = '#' := fun hc => absurd (hhash hc) (by decide)
      unfold loadMtlStep
      rw [if_neg hlen, if_neg hch, hsp]
      cases hcur : st.cur <;>
        simp [hc4, hbad, List.drop_one, hcur]
  · have hc2 : ∀ s : String, ¬((s :: args : List String).length < 2) := by
      intro s
      simp only [List.length_cons]
      omega
    have hbadq : parsef32 (args[0]?.getD "") = none := by
      rw [← List.getD_eq_getElem?_getD]
      exact hbad
    rcases htyp with hsp | hsp | hsp <;>
    · obtain ⟨hlen, hhash⟩ := splitWS_guards hsp
      have hch : ¬l.toList.headD ' ' = '#' := fun hc => absurd (hhash hc) (by decide)
      unfold loadMtlStep
      rw [if_neg hlen, if_neg hch, hsp]
      cases hcur : st.cur <;>
        simp [hc2, hbadq, hlen1, hcur]
  · have hc2 : ∀ s : String, ¬((s :: args : List String).length < 2) := by
      intro s
      simp only [List.length_cons]
      omega
    have hbadq : parseint (args[0]?.getD "") = none := by
      rw [← List.getD_eq_getElem?_getD]
      exact hbad
    obtain ⟨hlen, hhash⟩ := splitWS_guards hsp
    have hch : ¬l.toList.headD ' ' = '#' := fun hc => absurd (hhash hc) (by decide)
    unfold loadMtlStep
    rw [if_neg hlen, if_neg hch, hsp]
    cases hcur : st.cur <;>
      simp [hc2, hbadq, hlen1, hcur]

/-- **C8 counterexample.**  A face of unsupported arity does abort the
load, but the panic fires at flush time: after `f 1/1 2/2` followed by
`s off`, the error's line is `s off` — the line being scanned when the
pending faces were flushed at EOF — not the offending face line, refuting
"a non-nil error whose message includes the text of the offending
line". -/
theorem load_error_line_counterexample :
    loadObj ["f 1/1 2/2", "s off"] = .error ⟨"s off"⟩
      ∧ ("s off" : String) ≠ "f 1/1 2/2" := ⟨rfl, by decide⟩

/-- Scanning a clean prefix commutes with the loader loop: the run over
`pre ++ suf` continues from the scanned state and last-scanned line. -/
theorem loadObjGo_scan_append (pre : List String) :
    ∀ (o : ObjData) (line : String) (o' : ObjData) (line' : String),
      scanObj o line pre = some (o', line') →
      ∀ suf, loadObjGo o line (pre ++ suf) = loadObjGo o' line' suf := by
  induction pre with
  | nil =>
    intro o line o' line' h suf
    simp only [scanObj, Option.some.injEq, Prod.mk.injEq] at h
    rw [List.nil_append, h.1, h.2]
  | cons t rest ih =>
    intro o line o' line' h suf
    cases hstep : loadObjStep o (trimSpace t) with
    | error e =>
      unfold scanObj at h
      rw [hstep] at h
      dsimp only at h
      cases h
    | ok o1 =>
      unfold scanObj at h
      rw [hstep] at h
      dsimp only at h
      have hout : loadObjGo o line ((t :: rest) ++ suf)
          = loadObjGo o1 (trimSpace t) (rest ++ suf) := by
        show (match loadObjStep o (trimSpace t) with
          | .error e => (.error e : Except LoadError Mesh)
          | .ok o2 => loadObjGo o2 (trimSpace t) (rest ++ suf)) = _
        rw [hstep]
      rw [hout]
      exact ih o1 (trimSpace t) o' line' h suf

/-- The MTL analogue of `loadObjGo_scan_append`. -/
theorem loadMtlGo_scan_append (pre : List String) :
    ∀ (st st' : MtlState), scanMtl st pre = some st' →
      ∀ suf, loadMtlGo st (pre ++ suf) = loadMtlGo st' suf := by
  induction pre with
  | nil =>
    intro st st' h suf
    simp only [scanMtl, Option.some.injEq] at h
    rw [List.nil_append, h]
  | cons t rest ih =>
    intro st st' h suf
    cases hstep : loadMtlStep st (trimSpace t) with
    | error e =>
      unfold scanMtl at h
      rw [hstep] at h
      dsimp only at h
      cases h
    | ok st1 =>
      unfold scanMtl at h
      rw [hstep] at h
      dsimp only at h
      have hout : loadMtlGo st ((t :: rest) ++ suf)
          = loadMtlGo st1 (rest ++ suf) := by
        show (match loadMtlStep st (trimSpace t) with
          | .error e => (.error e : Except LoadError MtlState)
          | .ok st2 => loadMtlGo st2 (rest ++ suf)) = _
        rw [hstep]
      rw [hout]
      exact ih st1 st' h suf

/-- **C8 (amended).**  For every OBJ or MTL input containing a line with
a malformed numeric field — any input split as a cleanly scanned prefix,
the offending line and an arbitrary remainder — the load aborts with an
error carrying the offending line itself.  For every scanned state
holding a pending face of unsupported arity, the load aborts when the
pending faces are flushed, with an error carrying the line being scanned
at flush time: the next `g` directive's line, or the last line of the
file at EOF — which need not be the face's own line.  In every case an
error excludes returning any (partially parsed) mesh as success. -/
theorem load_error_line_amended :
    (∀ (pre : List String) (bad : String) (rest : List String)
        (o : ObjData) (line : String),
      scanObj ⟨Mesh.new, [], "", ""⟩ "" pre = some (o, line) →
      ObjNumericBad (trimSpace bad) →
      loadObj (pre ++ bad :: rest) = .error ⟨trimSpace bad⟩)
    ∧ (∀ (pre : List String) (bad : String) (rest : List String)
        (st : MtlState),
      scanMtl ⟨[], none, []⟩ pre = some st →
      MtlNumericBad (trimSpace bad) →
      loadMtl (pre ++ bad :: rest) = .error ⟨trimSpace bad⟩)
    ∧ (∀ (pre : List String) (o : ObjData) (line : String),
      scanObj ⟨Mesh.new, [], "", ""⟩ "" pre = some (o, line) →
      BadArity o →
      loadObj pre = .error ⟨line⟩)
    ∧ (∀ (pre : List String) (gline : String) (args : List String)
        (rest : List String) (o : ObjData) (line : String),
      scanObj ⟨Mesh.new, [], "", ""⟩ "" pre = some (o, line) →
      BadArity o →
      splitWS (trimSpace gline) = "g" :: args →
      args ≠ [] →
      loadObj (pre ++ gline :: rest) = .error ⟨trimSpace gline⟩)
    ∧ (∀ (lines : List String) (e : LoadError) (m : Mesh),
      loadObj lines = .error e → loadObj lines ≠ .ok m) := by
  refine ⟨?_, ?_, ?_, ?_, ?_⟩
  · intro pre bad rest o line hscan hbad
    unfold loadObj
    rw [loadObjGo_scan_append pre _ _ _ _ hscan (bad :: rest)]
    unfold loadObjGo
    dsimp only
    rw [loadObjStep_numeric_error o (trimSpace bad) hbad]
  · intro pre bad rest st hscan hbad
    unfold loadMtl
    rw [loadMtlGo_scan_append pre _ _ hscan (bad :: rest)]
    unfold loadMtlGo
    dsimp only
    rw [loadMtlStep_numeric_error st (trimSpace bad) hbad]
  · intro pre o line hscan hb
    unfold loadObj
    have happ := loadObjGo_scan_append pre _ _ _ _ hscan []
    rw [List.append_nil] at happ
    rw [happ]
    unfold loadObjGo
    rw [build_none_of_badArity o hb "__END"]
  · intro pre gline args rest o line hscan hb hsp hne
    unfold loadObj
    rw [loadObjGo_scan_append pre _ _ _ _ hscan (gline :: rest)]
    unfold loadObjGo
    dsimp only
    rw [loadObjStep_g_error o (trimSpace gline) args hsp hne hb]
  · intro lines e m herr hok
    rw [herr] at hok
    cases hok

/-- Concrete instances exercising every part of the amended statement:
a malformed `v` component, a malformed MTL shininess, arity errors
reported at EOF (the last scanned line, `vt 0 1`) and at a `g` directive,
and error-excludes-success. -/
theorem load_error_line_amended_witness :
    loadObj ["v 0 0 foo"] = .error ⟨"v 0 0 foo"⟩
    ∧ loadMtl ["newmtl m", "Ns foo"] = .error ⟨"Ns foo"⟩
    ∧ loadObj ["f 1/1 2/2", "vt 0 1"] = .error ⟨"vt 0 1"⟩
    ∧ loadObj ["f 1 2 3 4 5", "g next"] = .error ⟨"g next"⟩
    ∧ loadObj ["v 0 0 foo"] ≠ .ok Mesh.new := by
  refine ⟨?_, ?_, ?_, ?_, ?_⟩
  · exact load_error_line_amended.1 [] "v 0 0 foo" [] ⟨Mesh.new, [], "", ""⟩ ""
      rfl (Or.inl ⟨["0", "0", "foo"], Or.inl rfl, rfl⟩)
  · exact load_error_line_amended.2.1 ["newmtl m"] "Ns foo" []
      ⟨[], some (newMtlData "m"), []⟩ rfl
      (Or.inr (Or.inl ⟨["foo"], Or.inl rfl, by decide, rfl⟩))
  · exact load_error_line_amended.2.2.1 ["f 1/1 2/2", "vt 0 1"]
      ⟨{ Mesh.new with texcoords := [⟨0, 1⟩] },
        [("", [[⟨1, 1, 0⟩, ⟨2, 2, 0⟩]])], "", ""⟩ "vt 0 1" rfl
      ⟨("", [[⟨1, 1, 0⟩, ⟨2, 2, 0⟩]]), List.mem_singleton.mpr rfl,
        [⟨1, 1, 0⟩, ⟨2, 2, 0⟩], List.mem_singleton.mpr rfl, by decide⟩
  · exact load_error_line_amended.2.2.2.1 ["f 1 2 3 4 5"] "g next" ["next"] []
      ⟨Mesh.new, [("", [[⟨1, 0, 0⟩, ⟨2, 0, 0⟩, ⟨3, 0, 0⟩, ⟨4, 0, 0⟩,
        ⟨5, 0, 0⟩]])], "", ""⟩ "f 1 2 3 4 5" rfl
      ⟨("", [[⟨1, 0, 0⟩, ⟨2, 0, 0⟩, ⟨3, 0, 0⟩, ⟨4, 0, 0⟩, ⟨5, 0, 0⟩]]),
        List.mem_singleton.mpr rfl,
        [⟨1, 0, 0⟩, ⟨2, 0, 0⟩, ⟨3, 0, 0⟩, ⟨4, 0, 0⟩, ⟨5, 0, 0⟩],
        List.mem_singleton.mpr rfl, by decide⟩
      rfl (by decide)
  · exact load_error_line_amended.2.2.2.2 ["v 0 0 foo"] ⟨"v 0 0 foo"⟩
      Mesh.new rfl

/-- **C9 counterexample.**  For illumination model 0 with
`Ka = Kd = (1,0,0)`, the code stores ambient scale 0 (model 0 forces it),
while the claimed `|Ka|/|Kd|` is 1. -/
theorem mtl_ambscale_counterexample :
    (toMaterial { newMtlData "m" with
        ambient := ⟨1, 0, 0⟩, diffuse := ⟨1, 0, 0⟩, model := 0 }).ambient = 0
    ∧ fsqrt (Vec3.normSq ⟨1, 0, 0⟩) / fsqrt (Vec3.normSq ⟨1, 0, 0⟩) = 1
    ∧ (0 : ℚ) ≠ 1 := by
  refine ⟨rfl, ?_, by norm_num⟩
  norm_num [Vec3.normSq, fsqrt_one]

/-- **C9 (amended).**  Resolving an MTL record: illumination model 0 or 1
selects the Diffuse-only material, any other model (the `default` branch)
selects the Blinn-Phong Reflective material with the record's specular
color and doubled-on-parse shininess; the color is `Kd` with alpha
appended; and the derived ambient scale is
`|Vec4(Ka,1)| / |Vec4(Kd,1)|` — the ratio of the magnitudes of the
ambient and diffuse colors each extended by a fourth component 1 —
except that model 0 forces the ambient scale to 0. -/
theorem mtl_material_selection (m : MtlData) :
    ((m.model = 0 ∨ m.model = 1) → (toMaterial m).kind = .diffuse)
    ∧ (¬(m.model = 0 ∨ m.model = 1) →
        (toMaterial m).kind
          = .reflective ((m.specular.vec4 m.alpha).vec3) m.shininess)
    ∧ (toMaterial m).color = m.diffuse.vec4 m.alpha
    ∧ (toMaterial m).ambient
        = if m.model = 0 then 0
          else fsqrt (m.ambient.vec4 1).normSq / fsqrt (m.diffuse.vec4 1).normSq := by
  unfold toMaterial
  by_cases h0 : m.model = 0
  · simp [h0]
  · by_cases h1 : m.model = 1 <;> simp [h0, h1]

theorem mtl_material_selection_witness :
    (toMaterial { newMtlData "a" with model := 3 }).kind
      = .reflective ⟨1/2, 1/2, 1/2⟩ 128 :=
  (mtl_material_selection { newMtlData "a" with model := 3 }).2.1
    (by decide)

section CloneDefs

/-! ## `Clone` and the shape-generator cache (C10)

Go's pointer graph is made explicit: a heap carries the `meshGroup`
records (each holding the address of its `Material`) and the material
values; a mesh holds its built buffers by value — `vdata`, `edata` and
the shared index data are immutable after `Build`, so sharing them is
modelled as plain value copies — and its render groups by address.
`(*Mesh).Clone` allocates a fresh `meshGroup` per group holding a fresh
copy (`mtl.Clone()`) of the group's material; `SetMaterial` writes the
`mtl` field of every group record the mesh points at; mutating a
material in place (`SetColor` / `SetAmbient`) writes the material value
at its address.  Every shape generator's cache-hit path is
`return m.Clone()` on the cached mesh (`part_013`). -/

/-- `meshGroup` in the heap: address of its material plus its (shared)
element index data. -/
structure HGroup where
  mtl : ℕ
  edata : List ℕ
deriving DecidableEq, Repr

def dG : HGroup := ⟨0, []⟩

def dM : Material := ⟨.diffuse, ⟨0, 0, 0, 0⟩, 0⟩

/-- The mutable store: `meshGroup` records and `Material` values. -/
structure Heap where
  grps : List HGroup
  mats : List Material
deriving DecidableEq, Repr

/-- A built mesh as the generators return it: value fields plus the
addresses of its render groups. -/
structure HMesh where
  vdata : List (List ℚ)
  inverted : ℤ
  pointSize : ℤ
  groups : List ℕ
deriving DecidableEq, Repr

/-- The loop of `Clone`: for each group allocate a fresh material copy
and a fresh `meshGroup` pointing at it, sharing `edata`. -/
def cloneGroups : Heap → List ℕ → Heap × List ℕ
  | h, [] => (h, [])
  | h, g :: rest =>
    let grp := h.grps.getD g dG
    let h1 : Heap := ⟨h.grps ++ [⟨h.mats.length, grp.edata⟩],
      h.mats ++ [h.mats.getD grp.mtl dM]⟩
    let r := cloneGroups h1 rest
    (r.1, h.grps.length :: r.2)

/-- `(*Mesh).Clone`. -/
def cloneMesh (h : Heap) (m : HMesh) : Heap × HMesh :=
  let r := cloneGroups h m.groups
  (r.1, { m with groups := r.2 })

/-- `(*Mesh).SetMaterial`: point every group record of `m` at the
material `a`. -/
def setMaterial (h : Heap) (m : HMesh) (a : ℕ) : Heap :=
  let gs := m.groups.foldl (fun gs g => gs.set g { gs.getD g dG with mtl := a }) h.grps
  { h with grps := gs }

/-- An in-place material mutation (`SetColor` / `SetAmbient`): overwrite
the material value at address `a`. -/
def matWrite (h : Heap) (a : ℕ) (v : Material) : Heap :=
  { h with mats := h.mats.set a v }

/-- The material values a mesh's groups currently resolve to. -/
def meshMaterials (h : Heap) (m : HMesh) : List Material :=
  m.groups.map (fun g => h.mats.getD (h.grps.getD g dG).mtl dM)

/-- A generator's cache-hit path: look the key up and return a clone of
the cached mesh. -/
def generatorHit (h : Heap) (cache : List ((ℤ × ℤ) × HMesh)) (k : ℤ × ℤ) :
    Option (Heap × HMesh) :=
  match alistLookup cache k with
  | some m => some (cloneMesh h m)
  | none => none

end CloneDefs

theorem set_getD_ne {α : Type} (l : List α) (v d : α) {i j : ℕ} (hij : i ≠ j) :
    (l.set i v).getD j d = l.getD j d := by
  rw [List.getD_eq_getElem?_getD, List.getD_eq_getElem?_getD,
    List.getElem?_set_ne hij]

/-- The heap after cloning one group: one fresh group record pointing at
one fresh copy of the group's material. -/
def cloneStepHeap (h : Heap) (g : ℕ) : Heap :=
  ⟨h.grps ++ [⟨h.mats.length, (h.grps.getD g dG).edata⟩],
   h.mats ++ [h.mats.getD ((h.grps.getD g dG).mtl) dM]⟩

/-- What the `Clone` loop allocates: the heap grows by one group record
and one material per cloned group, old cells are untouched, the fresh
addresses lie past the old heap, and the fresh groups resolve to the same
material values and element data as the originals. -/
theorem cloneGroups_spec (gs : List ℕ) : ∀ h : Heap,
    (∀ g ∈ gs, g < h.grps.length ∧ (h.grps.getD g dG).mtl < h.mats.length) →
    (cloneGroups h gs).1.grps.length = h.grps.length + gs.length
    ∧ (cloneGroups h gs).1.mats.length = h.mats.length + gs.length
    ∧ h.grps <+: (cloneGroups h gs).1.grps
    ∧ h.mats <+: (cloneGroups h gs).1.mats
    ∧ (cloneGroups h gs).2.length = gs.length
    ∧ (∀ a ∈ (cloneGroups h gs).2,
        h.grps.length ≤ a ∧ a < (cloneGroups h gs).1.grps.length
        ∧ h.mats.length ≤ ((cloneGroups h gs).1.grps.getD a dG).mtl
        ∧ ((cloneGroups h gs).1.grps.getD a dG).mtl
            < (cloneGroups h gs).1.mats.length)
    ∧ (cloneGroups h gs).2.map (fun a => (cloneGroups h gs).1.mats.getD
          (((cloneGroups h gs).1.grps.getD a dG).mtl) dM)
        = gs.map (fun g => h.mats.getD ((h.grps.getD g dG).mtl) dM)
    ∧ (cloneGroups h gs).2.map
          (fun a => ((cloneGroups h gs).1.grps.getD a dG).edata)
        = gs.map (fun g => (h.grps.getD g dG).edata) := by
  induction gs with
  | nil =>
    intro h _
    refine ⟨rfl, rfl, List.prefix_refl _, List.prefix_refl _, rfl, ?_, rfl, rfl⟩
    intro a ha
    cases ha
  | cons g rest ih =>
    intro h hv
    have hgv := hv g (List.mem_cons_self _ _)
    have hstep : cloneGroups h (g :: rest)
        = ((cloneGroups (cloneStepHeap h g) rest).1,
           h.grps.length :: (cloneGroups (cloneStepHeap h g) rest).2) := rfl
    have hlg : (cloneStepHeap h g).grps.length = h.grps.length + 1 := by
      simp [cloneStepHeap]
    have hlm : (cloneStepHeap h g).mats.length = h.mats.length + 1 := by
      simp [cloneStepHeap]
    have hS : ∀ g' ∈ rest,
        g' < (cloneStepHeap h g).grps.length
        ∧ ((cloneStepHeap h g).grps.getD g' dG).mtl
            < (cloneStepHeap h g).mats.length := by
      intro g' hg'
      obtain ⟨hlt, hmtl⟩ := hv g' (List.mem_cons_of_mem _ hg')
      refine ⟨by omega, ?_⟩
      show ((h.grps ++ _).getD g' dG).mtl < _
      rw [getD_append_left _ _ _ _ hlt]
      omega
    obtain ⟨L1, L2, P1, P2, Len2, Rng, MapM, MapE⟩ := ih (cloneStepHeap h g) hS
    rw [hstep]
    dsimp only
    rw [hlg] at L1
    rw [hlm] at L2
    have hP1 : h.grps <+: (cloneGroups (cloneStepHeap h g) rest).1.grps :=
      List.IsPrefix.trans ⟨[⟨h.mats.length, (h.grps.getD g dG).edata⟩], rfl⟩ P1
    have hP2 : h.mats <+: (cloneGroups (cloneStepHeap h g) rest).1.mats :=
      List.IsPrefix.trans ⟨[h.mats.getD ((h.grps.getD g dG).mtl) dM], rfl⟩ P2
    have hnew : (cloneGroups (cloneStepHeap h g) rest).1.grps.getD
          h.grps.length dG
        = ⟨h.mats.length, (h.grps.getD g dG).edata⟩ := by
      rw [prefix_getD P1 _ _ (by omega)]
      exact getD_concat _ _ _
    have hnewm : (cloneGroups (cloneStepHeap h g) rest).1.mats.getD
          h.mats.length dM
        = h.mats.getD ((h.grps.getD g dG).mtl) dM := by
      rw [prefix_getD P2 _ _ (by omega)]
      exact getD_concat _ _ _
    refine ⟨?_, ?_, hP1, hP2, ?_, ?_, ?_, ?_⟩
    · rw [L1]
      simp only [List.length_cons]
      omega
    · rw [L2]
      simp only [List.length_cons]
      omega
    · simp only [List.length_cons, Len2]
    · intro a ha
      rcases List.mem_cons.mp ha with rfl | ha'
      · refine ⟨le_refl _, by omega, ?_, ?_⟩
        · rw [hnew]
        · rw [hnew]
          show h.mats.length < _
          omega
      · obtain ⟨ha1, ha2, ha3, ha4⟩ := Rng a ha'
        rw [hlg] at ha1
        rw [hlm] at ha3
        exact ⟨by omega, ha2, by omega, ha4⟩
    · rw [List.map_cons, List.map_cons, hnew]
      simp only [hnewm]
      refine congrArg _ ?_
      rw [MapM]
      refine List.map_congr_left fun g' hg' => ?_
      obtain ⟨hlt, hmtl⟩ := hv g' (List.mem_cons_of_mem _ hg')
      show (cloneStepHeap h g).mats.getD
          (((cloneStepHeap h g).grps.getD g' dG).mtl) dM = _
      show ((h.grps ++ _).getD g' dG |> fun r => (h.mats ++ _).getD r.mtl dM) = _
      dsimp only
      rw [getD_append_left _ _ _ _ hlt, getD_append_left _ _ _ _ hmtl]
    · rw [List.map_cons, List.map_cons, hnew]
      refine congrArg _ ?_
      rw [MapE]
      refine List.map_congr_left fun g' hg' => ?_
      obtain ⟨hlt, -⟩ := hv g' (List.mem_cons_of_mem _ hg')
      show ((h.grps ++ _).getD g' dG).edata = _
      rw [getD_append_left _ _ _ _ hlt]

/-- Writing the `mtl` fields of the group records listed in `S` leaves
every record outside `S` unchanged. -/
theorem foldl_setMtl_getD_ne (a : ℕ) (S : List ℕ) (j : ℕ) (hj : j ∉ S) :
    ∀ gs : List HGroup,
      (S.foldl (fun gs g => gs.set g { gs.getD g dG with mtl := a }) gs).getD
          j dG
        = gs.getD j dG := by
  induction S with
  | nil => intro gs; rfl
  | cons s t ih =>
    intro gs
    rw [List.foldl_cons, ih (fun hmem => hj (List.mem_cons_of_mem _ hmem))]
    exact set_getD_ne _ _ _
      (fun hts => hj (hts ▸ List.mem_cons_self _ _))

/-- **C10.**  On a cache hit a shape generator returns `m.Clone()`: two
consecutive hit calls return fresh meshes `c1`, `c2` sharing the cached
mesh's value data (`vdata`, per-group `edata`) whose groups initially
resolve to the same material values as the cached mesh's, and neither
`SetMaterial` on `c1` nor mutating any of `c1`'s materials in place
changes the materials resolved by the cached mesh `m` or by the other
clone `c2`. -/
theorem clone_material_isolation (h : Heap) (cache : List ((ℤ × ℤ) × HMesh))
    (k : ℤ × ℤ) (m : HMesh) (hk : alistLookup cache k = some m)
    (hv : ∀ g ∈ m.groups,
      g < h.grps.length ∧ (h.grps.getD g dG).mtl < h.mats.length) :
    ∃ h1 c1 h2 c2,
      generatorHit h cache k = some (h1, c1)
      ∧ generatorHit h1 cache k = some (h2, c2)
      ∧ c1.vdata = m.vdata ∧ c2.vdata = m.vdata
      ∧ c1.groups.map (fun g => (h2.grps.getD g dG).edata)
          = m.groups.map (fun g => (h.grps.getD g dG).edata)
      ∧ meshMaterials h2 m = meshMaterials h m
      ∧ meshMaterials h2 c1 = meshMaterials h m
      ∧ meshMaterials h2 c2 = meshMaterials h m
      ∧ (∀ a : ℕ, meshMaterials (setMaterial h2 c1 a) m = meshMaterials h m
          ∧ meshMaterials (setMaterial h2 c1 a) c2 = meshMaterials h2 c2)
      ∧ (∀ i : ℕ, i < c1.groups.length → ∀ v : Material,
          meshMaterials
              (matWrite h2 ((h2.grps.getD (c1.groups.getD i 0) dG).mtl) v) m
            = meshMaterials h m
          ∧ meshMaterials
              (matWrite h2 ((h2.grps.getD (c1.groups.getD i 0) dG).mtl) v) c2
            = meshMaterials h2 c2) := by
  obtain ⟨L1a, L2a, P1a, P2a, Len2a, Rnga, MapMa, MapEa⟩ :=
    cloneGroups_spec m.groups h hv
  have hv1 : ∀ g ∈ m.groups,
      g < (cloneGroups h m.groups).1.grps.length
      ∧ ((cloneGroups h m.groups).1.grps.getD g dG).mtl
          < (cloneGroups h m.groups).1.mats.length := by
    intro g hg
    obtain ⟨hlt, hmtl⟩ := hv g hg
    refine ⟨by omega, ?_⟩
    rw [prefix_getD P1a _ _ hlt]
    omega
  obtain ⟨L1b, L2b, P1b, P2b, Len2b, Rngb, MapMb, MapEb⟩ :=
    cloneGroups_spec m.groups (cloneGroups h m.groups).1 hv1
  have hstab1 : meshMaterials (cloneGroups (cloneGroups h m.groups).1 m.groups).1
      m = meshMaterials h m := by
    unfold meshMaterials
    refine List.map_congr_left fun g hg => ?_
    obtain ⟨hlt, hmtl⟩ := hv g hg
    obtain ⟨hlt1, hmtl1⟩ := hv1 g hg
    rw [prefix_getD P1b _ _ hlt1, prefix_getD P1a _ _ hlt,
      prefix_getD P2b _ _ (by omega), prefix_getD P2a _ _ hmtl]
  have hstab2 : meshMaterials (cloneGroups (cloneGroups h m.groups).1 m.groups).1
      { m with groups := (cloneGroups h m.groups).2 } = meshMaterials h m := by
    unfold meshMaterials
    have hc : ((cloneGroups h m.groups).2.map
        (fun a => (cloneGroups (cloneGroups h m.groups).1 m.groups).1.mats.getD
          (((cloneGroups (cloneGroups h m.groups).1 m.groups).1.grps.getD a
            dG).mtl) dM))
        = ((cloneGroups h m.groups).2.map
          (fun a => (cloneGroups h m.groups).1.mats.getD
            (((cloneGroups h m.groups).1.grps.getD a dG).mtl) dM)) := by
      refine List.map_congr_left fun a ha => ?_
      obtain ⟨ha1, ha2, ha3, ha4⟩ := Rnga a ha
      rw [prefix_getD P1b _ _ ha2, prefix_getD P2b _ _ ha4]
    exact hc.trans MapMa
  have hstab3 : meshMaterials (cloneGroups (cloneGroups h m.groups).1 m.groups).1
      { m with groups := (cloneGroups (cloneGroups h m.groups).1 m.groups).2 }
      = meshMaterials h m := by
    unfold meshMaterials
    refine MapMb.trans ?_
    refine List.map_congr_left fun g hg => ?_
    obtain ⟨hlt, hmtl⟩ := hv g hg
    rw [prefix_getD P1a _ _ hlt, prefix_getD P2a _ _ hmtl]
  refine ⟨(cloneGroups h m.groups).1,
    { m with groups := (cloneGroups h m.groups).2 },
    (cloneGroups (cloneGroups h m.groups).1 m.groups).1,
    { m with groups := (cloneGroups (cloneGroups h m.groups).1 m.groups).2 },
    ?_, ?_, rfl, rfl, ?_, hstab1, hstab2, hstab3, ?_, ?_⟩
  · unfold generatorHit cloneMesh
    rw [hk]
  · unfold generatorHit cloneMesh
    rw [hk]
  · have hc : ((cloneGroups h m.groups).2.map
        (fun a => ((cloneGroups (cloneGroups h m.groups).1 m.groups).1.grps.getD
          a dG).edata))
        = ((cloneGroups h m.groups).2.map
          (fun a => ((cloneGroups h m.groups).1.grps.getD a dG).edata)) := by
      refine List.map_congr_left fun a ha => ?_
      obtain ⟨-, ha2, -, -⟩ := Rnga a ha
      rw [prefix_getD P1b _ _ ha2]
    exact hc.trans MapEa
  · intro a
    constructor
    · refine Eq.trans ?_ hstab1
      unfold meshMaterials setMaterial
      refine List.map_congr_left fun g hg => ?_
      obtain ⟨hlt, -⟩ := hv g hg
      have hnm : g ∉ { m with groups := (cloneGroups h m.groups).2 }.groups := by
        intro hmem
        obtain ⟨hb, -, -, -⟩ := Rnga g hmem
        omega
      rw [foldl_setMtl_getD_ne a _ g hnm]
    · refine Eq.trans ?_ rfl
      unfold meshMaterials setMaterial
      refine List.map_congr_left fun g hg => ?_
      have hnm : g ∉ { m with groups := (cloneGroups h m.groups).2 }.groups := by
        intro hmem
        obtain ⟨-, hb, -, -⟩ := Rnga g hmem
        obtain ⟨hc, -, -, -⟩ := Rngb g hg
        omega
      rw [foldl_setMtl_getD_ne a _ g hnm]
  · intro i hi v
    dsimp only at hi ⊢
    have hmem : (cloneGroups h m.groups).2.getD i 0
        ∈ (cloneGroups h m.groups).2 := by
      rw [List.getD_eq_getElem _ _ hi]
      exact List.getElem_mem hi
    obtain ⟨hb1, hb2, hb3, hb4⟩ := Rnga _ hmem
    have hbstab : ((cloneGroups (cloneGroups h m.groups).1 m.groups).1.grps.getD
          ((cloneGroups h m.groups).2.getD i 0) dG).mtl
        = (((cloneGroups h m.groups).1.grps.getD
            ((cloneGroups h m.groups).2.getD i 0) dG).mtl) := by
      rw [prefix_getD P1b _ _ hb2]
    constructor
    · refine Eq.trans ?_ hstab1
      unfold meshMaterials matWrite
      dsimp only
      refine List.map_congr_left fun g hg => ?_
      obtain ⟨hlt, hmtl⟩ := hv g hg
      obtain ⟨-, hmtl1⟩ := hv1 g hg
      refine set_getD_ne _ _ _ ?_
      rw [hbstab, prefix_getD P1b _ _ (by omega : g <
        (cloneGroups h m.groups).1.grps.length), prefix_getD P1a _ _ hlt]
      omega
    · refine Eq.trans ?_ rfl
      unfold meshMaterials matWrite
      dsimp only
      refine List.map_congr_left fun g hg => ?_
      obtain ⟨-, -, hg3, -⟩ := Rngb g hg
      refine set_getD_ne _ _ _ ?_
      rw [hbstab]
      omega

/-- A one-group heap exercising `clone_material_isolation` concretely. -/
theorem clone_material_isolation_witness :
    ∃ h1 c1 h2 c2,
      generatorHit ⟨[⟨0, [0, 1, 2]⟩], [dM]⟩ [((7, 12), ⟨[[1]], 0, 0, [0]⟩)]
          (7, 12) = some (h1, c1)
      ∧ generatorHit h1 [((7, 12), ⟨[[1]], 0, 0, [0]⟩)] (7, 12) = some (h2, c2)
      ∧ c1.vdata = (⟨[[1]], 0, 0, [0]⟩ : HMesh).vdata
      ∧ c2.vdata = (⟨[[1]], 0, 0, [0]⟩ : HMesh).vdata
      ∧ c1.groups.map (fun g => (h2.grps.getD g dG).edata)
          = (⟨[[1]], 0, 0, [0]⟩ : HMesh).groups.map
              (fun g => ((⟨[⟨0, [0, 1, 2]⟩], [dM]⟩ : Heap).grps.getD g dG).edata)
      ∧ meshMaterials h2 ⟨[[1]], 0, 0, [0]⟩
          = meshMaterials ⟨[⟨0, [0, 1, 2]⟩], [dM]⟩ ⟨[[1]], 0, 0, [0]⟩
      ∧ meshMaterials h2 c1
          = meshMaterials ⟨[⟨0, [0, 1, 2]⟩], [dM]⟩ ⟨[[1]], 0, 0, [0]⟩
      ∧ meshMaterials h2 c2
          = meshMaterials ⟨[⟨0, [0, 1, 2]⟩], [dM]⟩ ⟨[[1]], 0, 0, [0]⟩
      ∧ (∀ a : ℕ, meshMaterials (setMaterial h2 c1 a) ⟨[[1]], 0, 0, [0]⟩
            = meshMaterials ⟨[⟨0, [0, 1, 2]⟩], [dM]⟩ ⟨[[1]], 0, 0, [0]⟩
          ∧ meshMaterials (setMaterial h2 c1 a) c2 = meshMaterials h2 c2)
      ∧ (∀ i : ℕ, i < c1.groups.length → ∀ v : Material,
          meshMaterials
              (matWrite h2 ((h2.grps.getD (c1.groups.getD i 0) dG).mtl) v)
              ⟨[[1]], 0, 0, [0]⟩
            = meshMaterials ⟨[⟨0, [0, 1, 2]⟩], [dM]⟩ ⟨[[1]], 0, 0, [0]⟩
          ∧ meshMaterials
              (matWrite h2 ((h2.grps.getD (c1.groups.getD i 0) dG).mtl) v) c2
            = meshMaterials h2 c2) :=
  clone_material_isolation ⟨[⟨0, [0, 1, 2]⟩], [dM]⟩ [((7, 12), ⟨[[1]], 0, 0, [0]⟩)]
    (7, 12) ⟨[[1]], 0, 0, [0]⟩ rfl
    (by intro g hg; simp only [List.mem_singleton] at hg; subst hg; decide)

theorem fan_tri1 : triNormal fanBase [⟨1, 0, 0⟩, ⟨2, 0, 0⟩, ⟨3, 0, 0⟩]
    = ⟨0, 0, 1⟩ := by
  have h : triNormal fanBase [⟨1, 0, 0⟩, ⟨2, 0, 0⟩, ⟨3, 0, 0⟩]
      = ((Vec3.sub ⟨1, 0, 0⟩ ⟨0, 0, 0⟩).cross
          (Vec3.sub ⟨0, 1, 0⟩ ⟨0, 0, 0⟩)).normalize := rfl
  rw [h]
  norm_num [Vec3.sub, Vec3.cross, Vec3.normalize, Vec3.normSq, Vec3.mul,
    fsqrt_one, Vec3.mk.injEq]

theorem fan_tri2 : triNormal fanBase [⟨1, 0, 0⟩, ⟨3, 0, 0⟩, ⟨4, 0, 0⟩]
    = ⟨0, 0, 1⟩ := by
  have h : triNormal fanBase [⟨1, 0, 0⟩, ⟨3, 0, 0⟩, ⟨4, 0, 0⟩]
      = ((Vec3.sub ⟨0, 1, 0⟩ ⟨0, 0, 0⟩).cross
          (Vec3.sub ⟨-1, 0, 0⟩ ⟨0, 0, 0⟩)).normalize := rfl
  rw [h]
  norm_num [Vec3.sub, Vec3.cross, Vec3.normalize, Vec3.normSq, Vec3.mul,
    fsqrt_one, Vec3.mk.injEq]

theorem smoothing_correctness_witness :
    (((fanFaces.map (triNormal fanBase)).foldl Vec3.add Vec3.zero).mul
        (1 / ((fanFaces.map (triNormal fanBase)).length : ℚ))).normalize
        = (⟨0, 0, 1⟩ : Vec3)
    ∧ (∃ mf, execFaces { fanBase with
          elements := []
          ncache := newNormalCache true } fanFaces = some mf
        ∧ ∀ e ∈ (mf.setNormalSmoothing false).elements,
            0 < e.el.norm
              ∧ (mf.setNormalSmoothing false).normalAt e.el.norm = ⟨0, 0, 1⟩)
    ∧ (∃ mf, execFaces (pristine fanBase) fanFaces = some mf
        ∧ mf.elements.map mf.getData
            = fanFaces.flatMap (fun f => f.map
                (resolveNew fanBase f (some (triNormal fanBase f))))) :=
  smoothing_correctness fanBase fanFaces ⟨0, 0, 1⟩
    (by decide)
    (by
      intro f hf
      simp only [fanFaces, List.mem_cons, List.not_mem_nil, or_false] at hf
      rcases hf with rfl | rfl
      · exact fan_tri1
      · exact fan_tri2)
    (by norm_num [Vec3.normSq])
    (by simp [fanFaces])
    rfl

end Go3d
